import Mathlib

/-!
# Verification of the LousaRDP geometry pipeline

A shallow embedding of the geometry core of the LousaRDP whiteboard
application (`app/geometry.py`, `app/rdp.py`, `app/strokes.py`, `app/fit.py`,
`app/shapes.py`) together with proofs about the spec's claims.

Modelling conventions:
* Input points carry exact rational coordinates (`Point := ℚ × ℚ`); the
  Python floats are modelled by exact arithmetic.
* Quantities the source computes with `math.hypot` / `math.sqrt` are either
  modelled in `ℝ` via `Real.sqrt`, or — where a value is only ever used in
  order comparisons between non-negative quantities (the RDP distance scan) —
  tracked as exact *squared* values in `ℚ`, with thresholds squared
  accordingly.  Squaring is strictly monotone on non-negative reals, so every
  comparison made by the source is preserved exactly.
* Python's `float("inf")` (reachable only in `line_fit_rms`) is modelled by
  `⊤ : EReal`.
-/

/-- A 2-D point with exact rational coordinates (`(x, y)` tuples in the source). -/
abbrev Point := ℚ × ℚ

namespace Lousa

open scoped List

/-! ## geometry.py -/

/-- Squared Euclidean distance.  `geometry.distance(p, q)` is
`math.hypot(x2 - x1, y2 - y1) = Real.sqrt (dist_sq p q)`; the source only
ever compares it with `0` and with non-negative thresholds, and
`distance p q = 0 ↔ dist_sq p q = 0`. -/
def dist_sq (p q : Point) : ℚ :=
  (q.1 - p.1) ^ 2 + (q.2 - p.2) ^ 2

/-- `geometry.vector(p, q) = q - p`. -/
def vector (p q : Point) : Point :=
  (q.1 - p.1, q.2 - p.2)

/-- `geometry.dot(u, v)`. -/
def dot (u v : Point) : ℚ :=
  u.1 * v.1 + u.2 * v.2

/-- Squared norm of a vector; `geometry.norm(u) = Real.sqrt (norm_sq u)`. -/
def norm_sq (u : Point) : ℚ :=
  u.1 ^ 2 + u.2 ^ 2

theorem dist_sq_nonneg (p q : Point) : 0 ≤ dist_sq p q := by
  have h1 : (0:ℚ) ≤ (q.1 - p.1) ^ 2 := sq_nonneg _
  have h2 : (0:ℚ) ≤ (q.2 - p.2) ^ 2 := sq_nonneg _
  simpa [dist_sq] using add_nonneg h1 h2

theorem dist_sq_eq_zero_iff (p q : Point) : dist_sq p q = 0 ↔ p = q := by
  constructor
  · intro h
    have h1 : (0:ℚ) ≤ (q.1 - p.1) ^ 2 := sq_nonneg _
    have h2 : (0:ℚ) ≤ (q.2 - p.2) ^ 2 := sq_nonneg _
    have hx : (q.1 - p.1) ^ 2 = 0 := by
      simp only [dist_sq] at h; nlinarith
    have hy : (q.2 - p.2) ^ 2 = 0 := by
      simp only [dist_sq] at h; nlinarith
    have hx' : q.1 = p.1 := by
      have := pow_eq_zero_iff (n := 2) (by norm_num) |>.mp hx
      linarith [sub_eq_zero.mp this]
    have hy' : q.2 = p.2 := by
      have := pow_eq_zero_iff (n := 2) (by norm_num) |>.mp hy
      linarith [sub_eq_zero.mp this]
    exact Prod.ext hx'.symm hy'.symm
  · rintro rfl
    simp [dist_sq]

/-! ## rdp.py -/

/-- Squared perpendicular distance of `p` from the line through `s`–`e`
(`rdp._perpendicular_distance` squared; `fit._perpendicular_distance_point_to_line`
is the identical function).  If the segment is degenerate the source falls back
to the plain Euclidean distance from `p` to `s`.  The source computes
`|dy*x0 - dx*y0 + x2*y1 - y2*x1| / hypot(dx, dy)`; its square is
`(dy*x0 - dx*y0 + x2*y1 - y2*x1)^2 / (dx^2 + dy^2)`. -/
def perpendicular_distance_sq (p s e : Point) : ℚ :=
  let dx := e.1 - s.1
  let dy := e.2 - s.2
  if dx = 0 ∧ dy = 0 then
    (p.1 - s.1) ^ 2 + (p.2 - s.2) ^ 2
  else
    (dy * p.1 - dx * p.2 + e.1 * s.2 - e.2 * s.1) ^ 2 / (dx ^ 2 + dy ^ 2)

theorem perpendicular_distance_sq_nonneg (p s e : Point) :
    0 ≤ perpendicular_distance_sq p s e := by
  unfold perpendicular_distance_sq
  by_cases h : e.1 - s.1 = 0 ∧ e.2 - s.2 = 0
  · simp only [h, if_true]
    positivity
  · simp only [h, if_false]
    positivity

theorem perpendicular_distance_sq_start (s e : Point) :
    perpendicular_distance_sq s s e = 0 := by
  unfold perpendicular_distance_sq
  by_cases h : e.1 - s.1 = 0 ∧ e.2 - s.2 = 0
  · simp [h]
  · simp only [h, if_false]
    have : ((e.2 - s.2) * s.1 - (e.1 - s.1) * s.2 + e.1 * s.2 - e.2 * s.1) = 0 := by ring
    simp [this]

theorem perpendicular_distance_sq_end (s e : Point) :
    perpendicular_distance_sq e s e = 0 := by
  unfold perpendicular_distance_sq
  by_cases h : e.1 - s.1 = 0 ∧ e.2 - s.2 = 0
  · obtain ⟨h1, h2⟩ := h
    have he1 : e.1 = s.1 := by linarith
    have he2 : e.2 = s.2 := by linarith
    simp [he1, he2]
  · simp only [h, if_false]
    have : ((e.2 - s.2) * e.1 - (e.1 - s.1) * e.2 + e.1 * s.2 - e.2 * s.1) = 0 := by ring
    simp [this]

/-- The scan `for i in range(1, len(points) - 1)` of `rdp.rdp` that finds the
interior point of maximum (squared) distance from the chord, together with its
index.  `m` is the running `max_distance` (squared), `idx` the running
`index_of_max` (`-1` when no point exceeded the running maximum yet). -/
def scanLoop (points : List Point) (s e : Point) (i : ℕ) (m : ℚ) (idx : ℤ) :
    ℚ × ℤ :=
  if i + 1 < points.length then
    let d := perpendicular_distance_sq (points.getD i default) s e
    if m < d then scanLoop points s e (i + 1) d (i : ℤ)
    else scanLoop points s e (i + 1) m idx
  else (m, idx)
termination_by points.length - i
decreasing_by
  all_goals omega

/-- The resulting index stays `-1` or lands inside the interior index range. -/
theorem scanLoop_idx_bound (points : List Point) (s e : Point) :
    ∀ fuel i m idx, points.length - i ≤ fuel → 1 ≤ i →
      (idx = -1 ∨ (1 ≤ idx ∧ idx ≤ (points.length : ℤ) - 2)) →
      ((scanLoop points s e i m idx).2 = -1 ∨
        (1 ≤ (scanLoop points s e i m idx).2 ∧
          (scanLoop points s e i m idx).2 ≤ (points.length : ℤ) - 2)) := by
  intro fuel
  induction fuel with
  | zero =>
    intro i m idx hfuel hi hinv
    rw [scanLoop]
    have : ¬ (i + 1 < points.length) := by omega
    simp only [this, if_false]
    exact hinv
  | succ fuel ih =>
    intro i m idx hfuel hi hinv
    rw [scanLoop]
    by_cases h : i + 1 < points.length
    · simp only [h, if_true]
      by_cases hlt : m < perpendicular_distance_sq (points.getD i default) s e
      · simp only [hlt, if_true]
        exact ih (i + 1) _ _ (by omega) (by omega) (Or.inr (by omega))
      · simp only [hlt, if_false]
        exact ih (i + 1) m idx (by omega) (by omega) hinv
    · simp only [h, if_false]
      exact hinv

/-- `rdp.rdp(points, epsilon)` with all distance comparisons squared:
the source compares distances (and `epsilon`, which is positive on the branch
where comparisons happen) — comparing squares is equivalent. -/
def rdp (points : List Point) (ε : ℚ) : List Point :=
  if points = [] then []
  else if points.length < 3 then points
  else if ε ≤ 0 then points
  else
    let s := points.headD default
    let e := points.getLastD default
    let r := scanLoop points s e 1 0 (-1)
    if hr : ε ^ 2 < r.1 ∧ r.2 ≠ -1 then
      let i := r.2.toNat
      (rdp (points.take (i + 1)) ε).dropLast ++ rdp (points.drop i) ε
    else [s, e]
termination_by points.length
decreasing_by
  · have hb := scanLoop_idx_bound points (points.headD default)
      (points.getLastD default) points.length 1 0 (-1) (by omega) le_rfl (Or.inl rfl)
    rcases hb with hb | hb
    · exact absurd hb hr.2
    · have h3 : ¬ points.length < 3 := by assumption
      simp only [List.length_take]
      omega
  · have hb := scanLoop_idx_bound points (points.headD default)
      (points.getLastD default) points.length 1 0 (-1) (by omega) le_rfl (Or.inl rfl)
    rcases hb with hb | hb
    · exact absurd hb hr.2
    · have h3 : ¬ points.length < 3 := by assumption
      simp only [List.length_drop]
      omega

/-- Distance scanned at index `i` (value-level view of the scan). -/
def dAt (points : List Point) (s e : Point) (i : ℕ) : ℚ :=
  perpendicular_distance_sq (points.getD i default) s e

theorem scanLoop_stop (points : List Point) (s e : Point) (i : ℕ) (m : ℚ) (idx : ℤ)
    (h : ¬ (i + 1 < points.length)) : scanLoop points s e i m idx = (m, idx) := by
  rw [scanLoop]
  simp [h]

theorem scanLoop_step (points : List Point) (s e : Point) (i : ℕ) (m : ℚ) (idx : ℤ)
    (h : i + 1 < points.length) :
    scanLoop points s e i m idx =
      if m < dAt points s e i then
        scanLoop points s e (i + 1) (dAt points s e i) (i : ℤ)
      else scanLoop points s e (i + 1) m idx := by
  rw [scanLoop]
  simp only [h, if_true]
  rfl

/-- Full characterisation of the scan: either no interior point ever beat the
running maximum (and the accumulator is returned unchanged, bounding all
interior distances), or the result is the *first* interior index attaining the
maximum interior distance, which strictly beats the initial accumulator. -/
theorem scanLoop_spec (points : List Point) (s e : Point) :
    ∀ fuel i m' idx', points.length - i ≤ fuel →
      (scanLoop points s e i m' idx' = (m', idx') ∧
        ∀ j, i ≤ j → j + 1 < points.length → dAt points s e j ≤ m')
      ∨ (∃ k, i ≤ k ∧ k + 1 < points.length ∧
          (scanLoop points s e i m' idx').2 = (k : ℤ) ∧
          (scanLoop points s e i m' idx').1 = dAt points s e k ∧
          m' < dAt points s e k ∧
          (∀ j, i ≤ j → j < k → dAt points s e j < dAt points s e k) ∧
          (∀ j, i ≤ j → j + 1 < points.length →
            dAt points s e j ≤ dAt points s e k)) := by
  intro fuel
  induction fuel with
  | zero =>
    intro i m' idx' hfuel
    have hni : ¬ (i + 1 < points.length) := by omega
    exact Or.inl ⟨scanLoop_stop points s e i m' idx' hni, fun j hij hj => by omega⟩
  | succ fuel ih =>
    intro i m' idx' hfuel
    by_cases h : i + 1 < points.length
    · have hunf := scanLoop_step points s e i m' idx' h
      by_cases hlt : m' < dAt points s e i
      · rw [hunf, if_pos hlt]
        rcases ih (i + 1) (dAt points s e i) (i : ℤ) (by omega) with ⟨heq, hb⟩ | ⟨k, hk1, hk2, h2, h1, hm, hfirst, hmax⟩
        · refine Or.inr ⟨i, le_rfl, h, ?_, ?_, hlt, ?_, ?_⟩
          · rw [heq]
          · rw [heq]
          · intro j hij hji; omega
          · intro j hij hj
            rcases Nat.eq_or_lt_of_le hij with rfl | hij'
            · exact le_rfl
            · exact hb j hij' hj
        · refine Or.inr ⟨k, by omega, hk2, h2, h1, lt_trans hlt hm, ?_, ?_⟩
          · intro j hij hjk
            rcases Nat.eq_or_lt_of_le hij with rfl | hij'
            · exact hm
            · exact hfirst j hij' hjk
          · intro j hij hj
            rcases Nat.eq_or_lt_of_le hij with rfl | hij'
            · exact le_of_lt hm
            · exact hmax j hij' hj
      · rw [hunf, if_neg hlt]
        rcases ih (i + 1) m' idx' (by omega) with ⟨heq, hb⟩ | ⟨k, hk1, hk2, h2, h1, hm, hfirst, hmax⟩
        · refine Or.inl ⟨heq, ?_⟩
          intro j hij hj
          rcases Nat.eq_or_lt_of_le hij with rfl | hij'
          · exact le_of_not_lt hlt
          · exact hb j hij' hj
        · refine Or.inr ⟨k, by omega, hk2, h2, h1, hm, ?_, ?_⟩
          · intro j hij hjk
            rcases Nat.eq_or_lt_of_le hij with rfl | hij'
            · exact lt_of_le_of_lt (le_of_not_lt hlt) hm
            · exact hfirst j hij' hjk
          · intro j hij hj
            rcases Nat.eq_or_lt_of_le hij with rfl | hij'
            · exact le_trans (le_of_not_lt hlt) (le_of_lt hm)
            · exact hmax j hij' hj
    · exact Or.inl ⟨scanLoop_stop points s e i m' idx' h, fun j hij hj => by omega⟩

/-! ### Branch equations for `rdp` -/

theorem rdp_eq_nil (ε : ℚ) : rdp [] ε = [] := by
  rw [rdp]
  simp

theorem rdp_eq_short {points : List Point} (ε : ℚ) (h : points.length < 3) :
    rdp points ε = points := by
  rw [rdp]
  by_cases hn : points = []
  · simp [hn]
  · simp [hn, h]

theorem rdp_eq_nonpos {points : List Point} {ε : ℚ} (h : ε ≤ 0) :
    rdp points ε = points := by
  rw [rdp]
  by_cases hn : points = []
  · simp [hn]
  · by_cases h3 : points.length < 3
    · simp [hn, h3]
    · simp [hn, h3, h]

theorem rdp_eq_collapse {points : List Point} {ε : ℚ} (h3 : ¬ points.length < 3)
    (hε : ¬ ε ≤ 0)
    (hc : ¬ (ε ^ 2 < (scanLoop points (points.headD default) (points.getLastD default) 1 0 (-1)).1 ∧
      (scanLoop points (points.headD default) (points.getLastD default) 1 0 (-1)).2 ≠ -1)) :
    rdp points ε = [points.headD default, points.getLastD default] := by
  have hn : points ≠ [] := by
    intro h; rw [h] at h3; simp at h3
  rw [rdp]
  simp only [if_neg hn, if_neg h3, if_neg hε, dif_neg hc]

theorem rdp_eq_split {points : List Point} {ε : ℚ} (h3 : ¬ points.length < 3)
    (hε : ¬ ε ≤ 0)
    (hc : ε ^ 2 < (scanLoop points (points.headD default) (points.getLastD default) 1 0 (-1)).1 ∧
      (scanLoop points (points.headD default) (points.getLastD default) 1 0 (-1)).2 ≠ -1) :
    rdp points ε =
      (rdp (points.take ((scanLoop points (points.headD default) (points.getLastD default) 1 0 (-1)).2.toNat + 1)) ε).dropLast
        ++ rdp (points.drop (scanLoop points (points.headD default) (points.getLastD default) 1 0 (-1)).2.toNat) ε := by
  have hn : points ≠ [] := by
    intro h; rw [h] at h3; simp at h3
  rw [rdp]
  simp only [if_neg hn, if_neg h3, if_neg hε, dif_pos hc]

/-! ### Structural properties of `rdp` -/

/-- `dropLast` is monotone with respect to the sublist order. -/
theorem sublist_dropLast {α : Type*} {l₁ l₂ : List α} (h : l₁ <+ l₂) :
    l₁.dropLast <+ l₂.dropLast := by
  induction h with
  | slnil => simp
  | @cons l₁ l₂ a h ih =>
    cases l₂ with
    | nil =>
      have hnil : l₁ = [] := List.sublist_nil.mp h
      simp [hnil]
    | cons b t =>
      rw [List.dropLast_cons₂]
      exact ih.cons a
  | @cons₂ l₁ l₂ a h ih =>
    cases l₁ with
    | nil => simp
    | cons b t =>
      cases l₂ with
      | nil => exact absurd (List.sublist_nil.mp h) (by simp)
      | cons c u =>
        rw [List.dropLast_cons₂, List.dropLast_cons₂]
        exact ih.cons₂ a

theorem pair_head_last_sublist {l : List Point} (h : 2 ≤ l.length) :
    [l.headD default, l.getLastD default] <+ l := by
  cases l with
  | nil => simp at h
  | cons a t =>
    cases t with
    | nil => simp at h
    | cons b u =>
      have ht : (b :: u) ≠ [] := by simp
      have hlast : (a :: b :: u).getLastD default = (b :: u).getLast ht := by
        simp [List.getLast?_eq_getLast_of_ne_nil ht]
      have hmem : (b :: u).getLast ht ∈ b :: u := List.getLast_mem ht
      have : [a, (a :: b :: u).getLastD default] <+ a :: b :: u := by
        rw [hlast]
        exact (List.singleton_sublist.mpr hmem).cons₂ a
      simpa using this

theorem head?_take {l : List Point} {k : ℕ} (h : 1 ≤ k) :
    (l.take k).head? = l.head? := by
  cases l with
  | nil => simp
  | cons a t =>
    cases k with
    | zero => omega
    | succ k => simp

theorem getLast?_drop {l : List Point} {i : ℕ} (h : i < l.length) :
    (l.drop i).getLast? = l.getLast? := by
  induction l generalizing i with
  | nil => simp at h
  | cons a t ih =>
    cases i with
    | zero => simp
    | succ i =>
      have hi : i < t.length := by simpa using h
      have ht : t ≠ [] := by
        intro hnil
        rw [hnil] at hi
        simp at hi
      obtain ⟨b, u, rfl⟩ : ∃ b u, t = b :: u := by
        cases t with
        | nil => exact absurd rfl ht
        | cons b u => exact ⟨b, u, rfl⟩
      rw [List.drop_succ_cons, ih hi, List.getLast?_cons_cons]

theorem head?_dropLast {l : List Point} (h : 2 ≤ l.length) :
    l.dropLast.head? = l.head? := by
  cases l with
  | nil => simp at h
  | cons a t =>
    cases t with
    | nil => simp at h
    | cons b u => rw [List.dropLast_cons₂]; simp

theorem head?_eq_headD {l : List Point} (h : l ≠ []) :
    l.head? = some (l.headD default) := by
  cases l with
  | nil => exact absurd rfl h
  | cons a t => simp

theorem getLast?_eq_getLastD {l : List Point} (h : l ≠ []) :
    l.getLast? = some (l.getLastD default) := by
  simp [List.getLastD_eq_getLast?, List.getLast?_eq_getLast_of_ne_nil h]

/-- Facts delivered by the interior scan when it found a split index. -/
theorem scan_main {points : List Point} (hne : (scanLoop points (points.headD default)
      (points.getLastD default) 1 0 (-1)).2 ≠ -1) :
    ∃ k : ℕ, 1 ≤ k ∧ k + 1 < points.length ∧
      (scanLoop points (points.headD default) (points.getLastD default) 1 0 (-1)).2 = (k : ℤ) ∧
      (scanLoop points (points.headD default) (points.getLastD default) 1 0 (-1)).1 =
        dAt points (points.headD default) (points.getLastD default) k ∧
      0 < dAt points (points.headD default) (points.getLastD default) k ∧
      (∀ j, 1 ≤ j → j < k →
        dAt points (points.headD default) (points.getLastD default) j <
          dAt points (points.headD default) (points.getLastD default) k) ∧
      (∀ j, 1 ≤ j → j + 1 < points.length →
        dAt points (points.headD default) (points.getLastD default) j ≤
          dAt points (points.headD default) (points.getLastD default) k) := by
  rcases scanLoop_spec points (points.headD default) (points.getLastD default)
      points.length 1 0 (-1) (by omega) with ⟨heq, _⟩ | ⟨k, hk1, hk2, h2, h1, hm, hfirst, hmax⟩
  · rw [heq] at hne
    exact absurd rfl hne
  · exact ⟨k, hk1, hk2, h2, h1, hm, hfirst, hmax⟩

theorem rdp_sublist_aux (n : ℕ) :
    ∀ (points : List Point) (ε : ℚ), points.length ≤ n → rdp points ε <+ points := by
  induction n with
  | zero =>
    intro points ε h
    have : points = [] := List.length_eq_zero.mp (by omega)
    subst this
    rw [rdp_eq_nil]
  | succ n ih =>
    intro points ε hlen
    by_cases h3 : points.length < 3
    · rw [rdp_eq_short _ h3]
    · by_cases hε : ε ≤ 0
      · rw [rdp_eq_nonpos hε]
      · by_cases hc : ε ^ 2 < (scanLoop points (points.headD default) (points.getLastD default) 1 0 (-1)).1 ∧
            (scanLoop points (points.headD default) (points.getLastD default) 1 0 (-1)).2 ≠ -1
        · rw [rdp_eq_split h3 hε hc]
          obtain ⟨k, hk1, hk2, hidx, -, -, -, -⟩ := scan_main hc.2
          rw [hidx]
          simp only [Int.toNat_ofNat]
          have hA : (rdp (points.take (k + 1)) ε).dropLast <+ points.take k := by
            have hsub : rdp (points.take (k + 1)) ε <+ points.take (k + 1) :=
              ih (points.take (k + 1)) ε (by simp [List.length_take]; omega)
            have hdl := sublist_dropLast hsub
            have hTakeLen : (points.take (k + 1)).length = k + 1 := by
              simp [List.length_take]; omega
            have : (points.take (k + 1)).dropLast = points.take k := by
              rw [List.dropLast_eq_take, hTakeLen, List.take_take]
              simp
            rwa [this] at hdl
          have hB : rdp (points.drop k) ε <+ points.drop k :=
            ih (points.drop k) ε (by simp [List.length_drop]; omega)
          calc (rdp (points.take (k + 1)) ε).dropLast ++ rdp (points.drop k) ε
              <+ points.take k ++ points.drop k := hA.append hB
            _ = points := List.take_append_drop k points
        · rw [rdp_eq_collapse h3 hε hc]
          exact pair_head_last_sublist (by omega)

theorem rdp_sublist (points : List Point) (ε : ℚ) : rdp points ε <+ points :=
  rdp_sublist_aux points.length points ε le_rfl

theorem rdp_length_le (points : List Point) (ε : ℚ) :
    (rdp points ε).length ≤ points.length :=
  (rdp_sublist points ε).length_le

theorem rdp_length_ge_two_aux (n : ℕ) :
    ∀ (points : List Point) (ε : ℚ), points.length ≤ n → 2 ≤ points.length →
      2 ≤ (rdp points ε).length := by
  induction n with
  | zero =>
    intro points ε h h2
    omega
  | succ n ih =>
    intro points ε hlen h2
    by_cases h3 : points.length < 3
    · rw [rdp_eq_short _ h3]; exact h2
    · by_cases hε : ε ≤ 0
      · rw [rdp_eq_nonpos hε]; exact h2
      · by_cases hc : ε ^ 2 < (scanLoop points (points.headD default) (points.getLastD default) 1 0 (-1)).1 ∧
            (scanLoop points (points.headD default) (points.getLastD default) 1 0 (-1)).2 ≠ -1
        · rw [rdp_eq_split h3 hε hc]
          obtain ⟨k, hk1, hk2, hidx, -, -, -, -⟩ := scan_main hc.2
          rw [hidx]
          simp only [Int.toNat_ofNat]
          have hA : 2 ≤ (rdp (points.take (k + 1)) ε).length :=
            ih (points.take (k + 1)) ε (by simp [List.length_take]; omega)
              (by simp [List.length_take]; omega)
          have hB : 2 ≤ (rdp (points.drop k) ε).length :=
            ih (points.drop k) ε (by simp [List.length_drop]; omega)
              (by simp [List.length_drop]; omega)
          rw [List.length_append, List.length_dropLast]
          omega
        · rw [rdp_eq_collapse h3 hε hc]
          simp

theorem rdp_length_ge_two {points : List Point} (ε : ℚ) (h : 2 ≤ points.length) :
    2 ≤ (rdp points ε).length :=
  rdp_length_ge_two_aux points.length points ε le_rfl h

theorem rdp_head?_aux (n : ℕ) :
    ∀ (points : List Point) (ε : ℚ), points.length ≤ n →
      (rdp points ε).head? = points.head? := by
  induction n with
  | zero =>
    intro points ε h
    have : points = [] := List.length_eq_zero.mp (by omega)
    subst this
    rw [rdp_eq_nil]
  | succ n ih =>
    intro points ε hlen
    by_cases h3 : points.length < 3
    · rw [rdp_eq_short _ h3]
    · by_cases hε : ε ≤ 0
      · rw [rdp_eq_nonpos hε]
      · by_cases hc : ε ^ 2 < (scanLoop points (points.headD default) (points.getLastD default) 1 0 (-1)).1 ∧
            (scanLoop points (points.headD default) (points.getLastD default) 1 0 (-1)).2 ≠ -1
        · rw [rdp_eq_split h3 hε hc]
          obtain ⟨k, hk1, hk2, hidx, -, -, -, -⟩ := scan_main hc.2
          rw [hidx]
          simp only [Int.toNat_ofNat]
          have hTwo : 2 ≤ (rdp (points.take (k + 1)) ε).length :=
            rdp_length_ge_two ε (by simp [List.length_take]; omega)
          have hAne : (rdp (points.take (k + 1)) ε).dropLast ≠ [] := by
            intro hnil
            have := congrArg List.length hnil
            simp only [List.length_dropLast, List.length_nil] at this
            omega
          rw [List.head?_append_of_ne_nil _ hAne,
            head?_dropLast hTwo,
            ih (points.take (k + 1)) ε (by simp [List.length_take]; omega),
            head?_take (by omega)]
        · rw [rdp_eq_collapse h3 hε hc]
          have hne : points ≠ [] := by intro h; rw [h] at h3; simp at h3
          exact (head?_eq_headD hne).symm

theorem rdp_head? (points : List Point) (ε : ℚ) :
    (rdp points ε).head? = points.head? :=
  rdp_head?_aux points.length points ε le_rfl

theorem rdp_getLast?_aux (n : ℕ) :
    ∀ (points : List Point) (ε : ℚ), points.length ≤ n →
      (rdp points ε).getLast? = points.getLast? := by
  induction n with
  | zero =>
    intro points ε h
    have : points = [] := List.length_eq_zero.mp (by omega)
    subst this
    rw [rdp_eq_nil]
  | succ n ih =>
    intro points ε hlen
    by_cases h3 : points.length < 3
    · rw [rdp_eq_short _ h3]
    · by_cases hε : ε ≤ 0
      · rw [rdp_eq_nonpos hε]
      · by_cases hc : ε ^ 2 < (scanLoop points (points.headD default) (points.getLastD default) 1 0 (-1)).1 ∧
            (scanLoop points (points.headD default) (points.getLastD default) 1 0 (-1)).2 ≠ -1
        · rw [rdp_eq_split h3 hε hc]
          obtain ⟨k, hk1, hk2, hidx, -, -, -, -⟩ := scan_main hc.2
          rw [hidx]
          simp only [Int.toNat_ofNat]
          have hTwo : 2 ≤ (rdp (points.drop k) ε).length :=
            rdp_length_ge_two ε (by simp [List.length_drop]; omega)
          have hBne : rdp (points.drop k) ε ≠ [] := by
            intro hnil
            rw [hnil] at hTwo
            simp at hTwo
          rw [List.getLast?_append_of_ne_nil _ hBne,
            ih (points.drop k) ε (by simp [List.length_drop]; omega),
            getLast?_drop (by omega)]
        · rw [rdp_eq_collapse h3 hε hc]
          have hne : points ≠ [] := by intro h; rw [h] at h3; simp at h3
          rw [List.getLast?_cons_cons]
          simp only [List.getLast?_singleton]
          exact (getLast?_eq_getLastD hne).symm

theorem rdp_getLast? (points : List Point) (ε : ℚ) :
    (rdp points ε).getLast? = points.getLast? :=
  rdp_getLast?_aux points.length points ε le_rfl

/-! ### Idempotence of `rdp` -/

theorem getD_eq_getElem_of_lt {l : List Point} {j : ℕ} (h : j < l.length) :
    l.getD j default = l[j] := by
  simp [List.getD_eq_getElem?_getD, List.getElem?_eq_getElem h]

theorem dAt_eq {points : List Point} {s e : Point} {j : ℕ} (hj : j < points.length) :
    dAt points s e j = perpendicular_distance_sq points[j] s e := by
  rw [dAt, getD_eq_getElem_of_lt hj]

theorem getElem_zero_eq_headD {l : List Point} (h : 0 < l.length) :
    l[0] = l.headD default := by
  cases l with
  | nil => simp at h
  | cons a t => simp

theorem getElem_last_eq_getLastD {l : List Point} (h : 0 < l.length) :
    l[l.length - 1] = l.getLastD default := by
  have hne : l ≠ [] := by
    intro hnil
    rw [hnil] at h
    simp at h
  rw [← List.getLast_eq_getElem l hne]
  simp [List.getLastD_eq_getLast?, List.getLast?_eq_getLast_of_ne_nil hne]

theorem mem_take_getElem {l : List Point} {t : ℕ} {x : Point} (h : x ∈ l.take t) :
    ∃ j, j < t ∧ ∃ hj : j < l.length, l[j] = x := by
  obtain ⟨n, hn, heq⟩ := List.mem_iff_getElem.mp h
  have hn' : n < t ∧ n < l.length := by
    simp only [List.length_take] at hn
    omega
  rw [List.getElem_take] at heq
  exact ⟨n, hn'.1, hn'.2, heq⟩

theorem mem_drop_getElem {l : List Point} {i : ℕ} {x : Point} (h : x ∈ l.drop i) :
    ∃ j, i ≤ j ∧ ∃ hj : j < l.length, l[j] = x := by
  obtain ⟨n, hn, heq⟩ := List.mem_iff_getElem.mp h
  have hn' : i + n < l.length := by
    simp only [List.length_drop] at hn
    omega
  rw [List.getElem_drop] at heq
  exact ⟨i + n, by omega, hn', heq⟩

theorem rdp_idem_aux (n : ℕ) :
    ∀ (points : List Point) (ε : ℚ), points.length ≤ n → 0 < ε →
      rdp (rdp points ε) ε = rdp points ε := by
  induction n with
  | zero =>
    intro points ε hlen hε
    have : points = [] := List.length_eq_zero.mp (by omega)
    subst this
    rw [rdp_eq_nil, rdp_eq_nil]
  | succ n ih =>
    intro points ε hlen hε0
    have hε : ¬ ε ≤ 0 := not_le.mpr hε0
    by_cases h3 : points.length < 3
    · rw [rdp_eq_short _ h3, rdp_eq_short _ h3]
    · by_cases hc : ε ^ 2 < (scanLoop points (points.headD default) (points.getLastD default) 1 0 (-1)).1 ∧
          (scanLoop points (points.headD default) (points.getLastD default) 1 0 (-1)).2 ≠ -1
      · -- recursive split case
        have hnp : points ≠ [] := by intro h; rw [h] at h3; simp at h3
        obtain ⟨k, hk1, hk2, hidx, hval, hpos, hfirst, hmax⟩ := scan_main hc.2
        have hkl : k < points.length := by omega
        have hkN : (scanLoop points (points.headD default) (points.getLastD default) 1 0 (-1)).2.toNat = k := by
          rw [hidx]; simp
        set s := points.headD default with hs
        set e := points.getLastD default with he
        set L := rdp (points.take (k + 1)) ε with hL
        set R := rdp (points.drop k) ε with hR
        have hsplit : rdp points ε = L.dropLast ++ R := by
          rw [rdp_eq_split h3 hε hc, hkN]
        have hLlen : 2 ≤ L.length := by
          rw [hL]
          exact rdp_length_ge_two ε (by simp only [List.length_take]; omega)
        have hRlen : 2 ≤ R.length := by
          rw [hR]
          exact rdp_length_ge_two ε (by simp only [List.length_drop]; omega)
        have hLdLen : L.dropLast.length = L.length - 1 := List.length_dropLast L
        have hLd_ne : L.dropLast ≠ [] := by
          intro hnil
          have := congrArg List.length hnil
          simp only [List.length_dropLast, List.length_nil] at this
          omega
        have hR_ne : R ≠ [] := by
          intro hnil
          have := congrArg List.length hnil
          simp only [List.length_nil] at this
          omega
        -- endpoints of the two halves
        have hLlast : L.getLast? = some points[k] := by
          rw [hL, rdp_getLast?]
          rw [List.take_succ, List.getElem?_eq_getElem hkl, Option.toList_some,
            List.getLast?_concat]
        have hRhead : R.head? = some points[k] := by
          rw [hR, rdp_head?, List.head?_drop, List.getElem?_eq_getElem hkl]
        have hLdecomp : L.dropLast ++ [points[k]] = L :=
          List.dropLast_append_getLast? points[k] (by rw [Option.mem_def]; exact hLlast)
        obtain ⟨Rt, hRdecomp⟩ : ∃ Rt, R = points[k] :: Rt := by
          cases hR' : R with
          | nil => exact absurd hR' hR_ne
          | cons a t =>
            rw [hR'] at hRhead
            simp only [List.head?_cons, Option.some.injEq] at hRhead
            exact ⟨t, by rw [hRhead]⟩
        -- heads and lasts of the simplified polyline
        have hQhead : (L.dropLast ++ R).head? = some s := by
          rw [List.head?_append_of_ne_nil _ hLd_ne, head?_dropLast hLlen, hL, rdp_head?,
            head?_take (by omega), head?_eq_headD hnp]
        have hQlast : (L.dropLast ++ R).getLast? = some e := by
          rw [List.getLast?_append_of_ne_nil _ hR_ne, hR, rdp_getLast?,
            getLast?_drop (by omega), getLast?_eq_getLastD hnp]
        -- the split value is not among the earlier points
        have hVne : ∀ j, j < k → ∀ hj : j < points.length, points[j] ≠ points[k] := by
          intro j hjk hj heq
          rcases Nat.eq_zero_or_pos j with rfl | hj1
          · have h0 : points[0] = s := getElem_zero_eq_headD (by omega)
            have hd0 : perpendicular_distance_sq points[(0:ℕ)] s e = 0 := by
              rw [h0]; exact perpendicular_distance_sq_start s e
            have hzero : dAt points s e k = 0 := by
              rw [dAt_eq hkl, ← heq, hd0]
            rw [hzero] at hpos
            exact lt_irrefl _ hpos
          · have hlt := hfirst j hj1 hjk
            rw [dAt_eq hj, dAt_eq hkl, heq] at hlt
            exact absurd hlt (lt_irrefl _)
        have hsubL : L <+ points.take (k + 1) := by
          rw [hL]; exact rdp_sublist _ _
        have hsubR : R <+ points.drop k := by
          rw [hR]; exact rdp_sublist _ _
        -- the split value occurs only once in the left half
        have hnotmem : points[k] ∉ L.dropLast := by
          intro hmem
          have htake_k : points[k] ∉ points.take k := by
            intro hmemtk
            obtain ⟨j, hjk, hj, heq⟩ := mem_take_getElem hmemtk
            exact hVne j hjk hj heq
          have hcount_take : (points.take (k + 1)).count points[k] = 1 := by
            rw [List.take_succ, List.getElem?_eq_getElem hkl, Option.toList_some,
              List.count_append]
            rw [List.count_eq_zero.mpr htake_k]
            simp [List.count_singleton]
          have hcount_L : L.count points[k] ≤ 1 := by
            rw [← hcount_take]
            exact hsubL.count_le _
          have h1 : 0 < L.dropLast.count points[k] := List.count_pos_iff.mpr hmem
          have h2 : L.count points[k] = L.dropLast.count points[k] + 1 := by
            rw [← hLdecomp, List.count_append]
            simp [List.count_singleton]
          omega
        -- distance bounds for the two halves, at the level of point values
        have hM1 : ∀ x ∈ L.dropLast, perpendicular_distance_sq x s e < dAt points s e k := by
          intro x hx
          have hxL : x ∈ L := (List.dropLast_sublist L).subset hx
          have hxtake : x ∈ points.take (k + 1) := hsubL.subset hxL
          obtain ⟨j, hjk1, hj, heq⟩ := mem_take_getElem hxtake
          rcases Nat.lt_or_ge j k with hjk | hjk
          · rcases Nat.eq_zero_or_pos j with rfl | hj1
            · have h0 : points[(0:ℕ)] = s := getElem_zero_eq_headD (by omega)
              rw [← heq, h0, perpendicular_distance_sq_start]
              exact hpos
            · have := hfirst j hj1 hjk
              rwa [dAt_eq hj, heq] at this
          · have hjeq : j = k := by omega
            subst hjeq
            exact absurd hx (heq ▸ hnotmem)
        have hM2 : ∀ x ∈ R, perpendicular_distance_sq x s e ≤ dAt points s e k := by
          intro x hx
          have hxdrop : x ∈ points.drop k := hsubR.subset hx
          obtain ⟨j, hjge, hj, heq⟩ := mem_drop_getElem hxdrop
          by_cases hjlt : j + 1 < points.length
          · have := hmax j (by omega) hjlt
            rwa [dAt_eq hj, heq] at this
          · have hje : j = points.length - 1 := by omega
            have hlast : points[j] = e := by
              subst hje
              exact getElem_last_eq_getLastD (by omega)
            rw [← heq, hlast, perpendicular_distance_sq_end]
            exact le_of_lt hpos
        -- the scan over the simplified polyline picks the same split point
        have hQlenlen : (L.dropLast ++ R).length = L.dropLast.length + R.length :=
          List.length_append _ _
        have hk0ge : 1 ≤ L.dropLast.length := by omega
        have hk0lt : L.dropLast.length + 1 < (L.dropLast ++ R).length := by
          rw [hQlenlen]; omega
        have hQk0 : (L.dropLast ++ R).getD L.dropLast.length default = points[k] := by
          rw [List.getD_eq_getElem?_getD, List.getElem?_append_right le_rfl]
          simp only [Nat.sub_self]
          have hRg : R[0]? = some points[k] := by
            rw [hRdecomp]
            simp
          rw [hRg, Option.getD_some]
        have hdQk0 : dAt (L.dropLast ++ R) s e L.dropLast.length = dAt points s e k := by
          simp only [dAt]
          rw [hQk0, getD_eq_getElem_of_lt hkl]
        have hQfirst : ∀ j, 1 ≤ j → j < L.dropLast.length →
            dAt (L.dropLast ++ R) s e j < dAt points s e k := by
          intro j hj1 hjk0
          have hmem : (L.dropLast ++ R).getD j default ∈ L.dropLast := by
            rw [List.getD_eq_getElem?_getD, List.getElem?_append_left hjk0,
              List.getElem?_eq_getElem hjk0, Option.getD_some]
            exact List.getElem_mem hjk0
          exact hM1 _ hmem
        have hQmax : ∀ j, 1 ≤ j → j + 1 < (L.dropLast ++ R).length →
            dAt (L.dropLast ++ R) s e j ≤ dAt points s e k := by
          intro j hj1 hjlen
          rcases Nat.lt_or_ge j L.dropLast.length with hjk0 | hjk0
          · exact le_of_lt (hQfirst j hj1 hjk0)
          · have hjR : j - L.dropLast.length < R.length := by
              rw [hQlenlen] at hjlen; omega
            have hmem : (L.dropLast ++ R).getD j default ∈ R := by
              rw [List.getD_eq_getElem?_getD, List.getElem?_append_right hjk0,
                List.getElem?_eq_getElem hjR, Option.getD_some]
              exact List.getElem_mem hjR
            exact hM2 _ hmem
        have hQheadD : (L.dropLast ++ R).headD default = s := by
          rw [List.headD_eq_head?_getD, hQhead]
          rfl
        have hQlastD : (L.dropLast ++ R).getLastD default = e := by
          rw [List.getLastD_eq_getLast?, hQlast]
          rfl
        have hscanQ : scanLoop (L.dropLast ++ R) s e 1 0 (-1) =
            (dAt points s e k, (L.dropLast.length : ℤ)) := by
          rcases scanLoop_spec (L.dropLast ++ R) s e (L.dropLast ++ R).length 1 0 (-1)
              (by omega) with ⟨heq2, hb⟩ | ⟨k', hk'1, hk'2, h2, h1, hm, hfirst', hmax'⟩
          · exfalso
            have hble := hb L.dropLast.length hk0ge hk0lt
            rw [hdQk0] at hble
            exact absurd hble (not_le.mpr hpos)
          · have hk'k0 : k' = L.dropLast.length := by
              by_contra hne
              rcases Nat.lt_or_ge k' L.dropLast.length with hlt | hge
              · have ha := hQfirst k' hk'1 hlt
                have hb2 := hmax' L.dropLast.length hk0ge hk0lt
                rw [hdQk0] at hb2
                exact absurd (lt_of_le_of_lt hb2 ha) (lt_irrefl _)
              · have hgt : L.dropLast.length < k' := by omega
                have ha := hfirst' L.dropLast.length hk0ge hgt
                have hb2 := hQmax k' hk'1 hk'2
                rw [hdQk0] at ha
                exact absurd (lt_of_lt_of_le ha hb2) (lt_irrefl _)
            subst hk'k0
            refine Prod.ext ?_ ?_
            · rw [h1, hdQk0]
            · rw [h2]
        have hQ3 : ¬ (L.dropLast ++ R).length < 3 := by
          rw [hQlenlen]; omega
        have hQc : ε ^ 2 < (scanLoop (L.dropLast ++ R) ((L.dropLast ++ R).headD default)
              ((L.dropLast ++ R).getLastD default) 1 0 (-1)).1 ∧
            (scanLoop (L.dropLast ++ R) ((L.dropLast ++ R).headD default)
              ((L.dropLast ++ R).getLastD default) 1 0 (-1)).2 ≠ -1 := by
          rw [hQheadD, hQlastD, hscanQ]
          constructor
          · have hh := hc.1
            rw [hval] at hh
            exact hh
          · show (L.dropLast.length : ℤ) ≠ -1
            omega
        have hQsplit : rdp (L.dropLast ++ R) ε =
            (rdp ((L.dropLast ++ R).take (L.dropLast.length + 1)) ε).dropLast ++
              rdp ((L.dropLast ++ R).drop L.dropLast.length) ε := by
          rw [rdp_eq_split hQ3 hε hQc]
          rw [hQheadD, hQlastD, hscanQ]
          simp only [Int.toNat_ofNat]
        have hQtake : (L.dropLast ++ R).take (L.dropLast.length + 1) = L := by
          rw [List.take_append 1, hRdecomp]
          simp only [List.take_succ_cons, List.take_zero]
          exact hLdecomp
        have hQdrop : (L.dropLast ++ R).drop L.dropLast.length = R :=
          List.drop_left _ _
        rw [hsplit, hQsplit, hQtake, hQdrop]
        have hidemL : rdp L ε = L := by
          rw [hL]
          exact ih (points.take (k + 1)) ε (by simp only [List.length_take]; omega) hε0
        have hidemR : rdp R ε = R := by
          rw [hR]
          exact ih (points.drop k) ε (by simp only [List.length_drop]; omega) hε0
        rw [hidemL, hidemR]
      · -- collapse case: result has two points, a second pass is the identity
        rw [rdp_eq_collapse h3 hε hc, rdp_eq_short _ (by simp)]

theorem rdp_idempotent (points : List Point) (ε : ℚ) (hε : 0 < ε) :
    rdp (rdp points ε) ε = rdp points ε :=
  rdp_idem_aux points.length points ε le_rfl hε

/-! ### Monotonicity of `rdp` in the tolerance -/

theorem rdp_mono_aux (n : ℕ) :
    ∀ (points : List Point) (ε₁ ε₂ : ℚ), points.length ≤ n → ε₁ < ε₂ →
      (rdp points ε₂).length ≤ (rdp points ε₁).length := by
  induction n with
  | zero =>
    intro points ε₁ ε₂ hlen hlt
    have : points = [] := List.length_eq_zero.mp (by omega)
    subst this
    rw [rdp_eq_nil, rdp_eq_nil]
  | succ n ih =>
    intro points ε₁ ε₂ hlen hlt
    by_cases h3 : points.length < 3
    · rw [rdp_eq_short _ h3, rdp_eq_short _ h3]
    · by_cases hε1 : ε₁ ≤ 0
      · rw [rdp_eq_nonpos hε1]
        exact rdp_length_le points ε₂
      · have hε2 : ¬ ε₂ ≤ 0 := by
          intro h
          exact hε1 (le_of_lt (lt_of_lt_of_le hlt h))
        by_cases hc2 : ε₂ ^ 2 < (scanLoop points (points.headD default) (points.getLastD default) 1 0 (-1)).1 ∧
            (scanLoop points (points.headD default) (points.getLastD default) 1 0 (-1)).2 ≠ -1
        · have hsq : ε₁ ^ 2 < ε₂ ^ 2 := by
            have h0 : 0 < ε₁ := not_le.mp hε1
            nlinarith
          have hc1 : ε₁ ^ 2 < (scanLoop points (points.headD default) (points.getLastD default) 1 0 (-1)).1 ∧
              (scanLoop points (points.headD default) (points.getLastD default) 1 0 (-1)).2 ≠ -1 :=
            ⟨lt_trans hsq hc2.1, hc2.2⟩
          rw [rdp_eq_split h3 hε1 hc1, rdp_eq_split h3 hε2 hc2]
          obtain ⟨k, hk1, hk2, hidx, -, -, -, -⟩ := scan_main hc2.2
          rw [hidx]
          simp only [Int.toNat_ofNat]
          have hA := ih (points.take (k + 1)) ε₁ ε₂ (by simp only [List.length_take]; omega) hlt
          have hB := ih (points.drop k) ε₁ ε₂ (by simp only [List.length_drop]; omega) hlt
          have hA2 : 2 ≤ (rdp (points.take (k + 1)) ε₁).length :=
            rdp_length_ge_two ε₁ (by simp only [List.length_take]; omega)
          simp only [List.length_append, List.length_dropLast]
          omega
        · rw [rdp_eq_collapse h3 hε2 hc2]
          have h2 : 2 ≤ (rdp points ε₁).length := rdp_length_ge_two ε₁ (by omega)
          simpa using h2

theorem rdp_length_mono (points : List Point) {ε₁ ε₂ : ℚ} (h : ε₁ < ε₂) :
    (rdp points ε₂).length ≤ (rdp points ε₁).length :=
  rdp_mono_aux points.length points ε₁ ε₂ le_rfl h

/-! ### Claim theorems for the simplifier -/

/-- Claim C2 (RDP idempotence): for every point sequence `P` and every
`ε > 0`, `rdp (rdp P ε) ε = rdp P ε`. -/
theorem claim_C2_rdp_idempotence (P : List Point) (ε : ℚ) (hε : 0 < ε) :
    rdp (rdp P ε) ε = rdp P ε :=
  rdp_idempotent P ε hε

theorem claim_C2_witness :
    rdp (rdp [((0:ℚ), (0:ℚ)), (5, 7), (10, 0), (12, 1)] 1) 1 =
      rdp [((0:ℚ), (0:ℚ)), (5, 7), (10, 0), (12, 1)] 1 :=
  claim_C2_rdp_idempotence [((0:ℚ), (0:ℚ)), (5, 7), (10, 0), (12, 1)] 1 (by norm_num)

/-- Claim C3 (RDP monotonic tolerance): for every point sequence `P` and
tolerances `ε₁ < ε₂`, the simplification at `ε₁` has at least as many points
as the simplification at `ε₂`. -/
theorem claim_C3_rdp_monotone (P : List Point) (ε₁ ε₂ : ℚ) (h : ε₁ < ε₂) :
    (rdp P ε₂).length ≤ (rdp P ε₁).length :=
  rdp_length_mono P h

theorem claim_C3_witness :
    (rdp [((0:ℚ), (0:ℚ)), (5, 7), (10, 0), (12, 1)] 2).length ≤
      (rdp [((0:ℚ), (0:ℚ)), (5, 7), (10, 0), (12, 1)] 1).length :=
  claim_C3_rdp_monotone [((0:ℚ), (0:ℚ)), (5, 7), (10, 0), (12, 1)] 1 2 (by norm_num)

/-- Claim C4 (RDP endpoint preservation): for every point sequence `P` with at
least two points and every `ε` (positive, zero or negative), the first and last
points of `rdp P ε` equal those of `P`. -/
theorem claim_C4_rdp_endpoints (P : List Point) (ε : ℚ) (h : 2 ≤ P.length) :
    (rdp P ε).head? = P.head? ∧ (rdp P ε).getLast? = P.getLast? :=
  ⟨rdp_head? P ε, rdp_getLast? P ε⟩

theorem claim_C4_witness :
    (rdp [((0:ℚ), (0:ℚ)), (5, 7), (10, 0)] (-1)).head? =
        [((0:ℚ), (0:ℚ)), (5, 7), (10, 0)].head? ∧
      (rdp [((0:ℚ), (0:ℚ)), (5, 7), (10, 0)] (-1)).getLast? =
        [((0:ℚ), (0:ℚ)), (5, 7), (10, 0)].getLast? :=
  claim_C4_rdp_endpoints [((0:ℚ), (0:ℚ)), (5, 7), (10, 0)] (-1) (by norm_num)

/-! ## strokes.py -/

/-- Length of one polyline segment, `math.hypot(x1 - x0, y1 - y0)`. -/
noncomputable def segLen (p q : Point) : ℝ :=
  Real.sqrt ((dist_sq p q : ℚ) : ℝ)

/-- The loop building the tail of `cumulative` in `resample_by_arc_length`:
`cumulative.append(cumulative[-1] + seg_len)`. -/
noncomputable def cumAux : ℝ → Point → List Point → List ℝ
  | _, _, [] => []
  | prev, p, q :: rest => (prev + segLen p q) :: cumAux (prev + segLen p q) q rest

/-- Cumulative arc-length at each point (`cumulative = [0.0]` then one entry
per further point). -/
noncomputable def cumulativeDistances : List Point → List ℝ
  | [] => []
  | p :: rest => 0 :: cumAux 0 p rest

/-- The `while j < len(points) and cumulative[j] < td: j += 1` loop. -/
noncomputable def advanceJ (n : ℕ) (cumulative : List ℝ) (j : ℕ) (td : ℝ) : ℕ :=
  if h : j < n ∧ cumulative.getD j 0 < td then advanceJ n cumulative (j + 1) td
  else j
termination_by n - j
decreasing_by
  omega

/-- The `for td in target_distances` loop of `resample_by_arc_length`; the
segment cursor `j` persists across iterations.  Output points are real pairs
(interpolation divides by a cumulative distance). -/
noncomputable def resampleLoop (points : List Point) (cumulative : List ℝ) :
    List ℝ → ℕ → List (ℝ × ℝ)
  | [], _ => []
  | td :: rest, j =>
    let j' := advanceJ points.length cumulative j td
    if j' = points.length then
      (((points.getLastD default).1 : ℝ), ((points.getLastD default).2 : ℝ)) ::
        resampleLoop points cumulative rest j'
    else
      let p0 := points.getD (j' - 1) default
      let p1 := points.getD j' default
      let d0 := cumulative.getD (j' - 1) 0
      let d1 := cumulative.getD j' 0
      if d1 = d0 then
        ((p0.1 : ℝ), (p0.2 : ℝ)) :: resampleLoop points cumulative rest j'
      else
        (((p0.1 : ℝ) + (td - d0) / (d1 - d0) * ((p1.1 : ℝ) - (p0.1 : ℝ)),
          (p0.2 : ℝ) + (td - d0) / (d1 - d0) * ((p1.2 : ℝ) - (p0.2 : ℝ)))) ::
          resampleLoop points cumulative rest j'

/-- `strokes.resample_by_arc_length(points, target_spacing)`.  Python's
`int(total_length / target_spacing)` truncates towards zero; on this branch
`total_length > 0` and `target_spacing > 0`, so it is the floor. -/
noncomputable def resample_by_arc_length (points : List Point) (target_spacing : ℚ) :
    List (ℝ × ℝ) :=
  if points = [] then []
  else if points.length < 2 then points.map (fun p => ((p.1 : ℝ), (p.2 : ℝ)))
  else if target_spacing ≤ 0 then points.map (fun p => ((p.1 : ℝ), (p.2 : ℝ)))
  else
    let cumulative := cumulativeDistances points
    let total := cumulative.getLastD 0
    if total = 0 then
      [(((points.headD default).1 : ℝ), ((points.headD default).2 : ℝ))]
    else
      let num : ℤ := ⌊total / (target_spacing : ℝ)⌋
      if num < 1 then points.map (fun p => ((p.1 : ℝ), (p.2 : ℝ)))
      else
        let targets := (List.range num.toNat).map
          (fun i => ((i : ℝ) * (target_spacing : ℝ)))
        let targets2 := if targets.getLastD 0 < total then targets ++ [total]
          else targets
        resampleLoop points cumulative targets2 1

/-! ### Claim C6: resampling a straight 100-unit segment -/

theorem segLen_horizontal (p : Point) (hp : p = ((0:ℚ), (0:ℚ))) :
    segLen p (100, 0) = 100 := by
  subst hp
  rw [segLen]
  have h : ((dist_sq ((0:ℚ), (0:ℚ)) (100, 0) : ℚ) : ℝ) = 10000 := by
    norm_num [dist_sq]
  rw [h, show (10000:ℝ) = 100 ^ 2 by norm_num, Real.sqrt_sq (by norm_num)]

theorem cumulative_horizontal :
    cumulativeDistances [((0:ℚ), (0:ℚ)), (100, 0)] = [0, 100] := by
  show 0 :: (0 + segLen ((0:ℚ), (0:ℚ)) (100, 0)) ::
    cumAux (0 + segLen ((0:ℚ), (0:ℚ)) (100, 0)) (100, 0) [] = [0, 100]
  rw [segLen_horizontal _ rfl]
  show [0, (0:ℝ) + 100] = [0, 100]
  norm_num

theorem advanceJ_horizontal (td : ℝ) (h : td ≤ 100) :
    advanceJ 2 [(0:ℝ), 100] 1 td = 1 := by
  rw [advanceJ]
  rw [dif_neg]
  rintro ⟨-, hlt⟩
  rw [List.getD_cons_succ, List.getD_cons_zero] at hlt
  linarith

theorem resampleLoop_horizontal_step (td : ℝ) (rest : List ℝ) (h : td ≤ 100) :
    resampleLoop [((0:ℚ), (0:ℚ)), (100, 0)] [(0:ℝ), 100] (td :: rest) 1 =
      (td, 0) :: resampleLoop [((0:ℚ), (0:ℚ)), (100, 0)] [(0:ℝ), 100] rest 1 := by
  rw [resampleLoop]
  simp only [List.length_cons, List.length_nil, advanceJ_horizontal td h]
  norm_num [List.getD_cons_succ, List.getD_cons_zero]

/-- Claim C6 (resampling endpoint fidelity): resampling the straight segment
from `(0,0)` to `(100,0)` with `target_spacing = 10` yields exactly the eleven
points `(0,0), (10,0), …, (100,0)`; in particular the final resampled point is
the final input point. -/
theorem claim_C6_resampling :
    resample_by_arc_length [((0:ℚ), (0:ℚ)), (100, 0)] 10 =
      [((0:ℝ), (0:ℝ)), (10, 0), (20, 0), (30, 0), (40, 0), (50, 0),
        (60, 0), (70, 0), (80, 0), (90, 0), (100, 0)] := by
  rw [resample_by_arc_length]
  rw [if_neg (by simp), if_neg (by norm_num), if_neg (by norm_num)]
  simp only [cumulative_horizontal]
  have hLast : ([0, (100:ℝ)].getLastD 0) = 100 := by simp
  rw [hLast]
  rw [if_neg (by norm_num : ¬(100:ℝ) = 0)]
  have hnum : ⌊(100:ℝ) / ((10:ℚ) : ℝ)⌋ = 10 := by
    rw [show ((10:ℚ) : ℝ) = 10 by norm_num,
      show (100:ℝ) / 10 = ((10:ℤ) : ℝ) by norm_num, Int.floor_intCast]
  rw [hnum]
  rw [if_neg (by norm_num : ¬(10:ℤ) < 1)]
  rw [show ((10:ℤ)).toNat = 10 from rfl]
  have htargets : (List.range 10).map (fun i => ((i:ℝ) * ((10:ℚ) : ℝ))) =
      [0, 10, 20, 30, 40, 50, 60, 70, 80, 90] := by
    rw [show List.range 10 = [0, 1, 2, 3, 4, 5, 6, 7, 8, 9] from rfl]
    norm_num
  rw [htargets]
  have hlast2 : ([0, 10, 20, 30, 40, 50, 60, 70, 80, (90:ℝ)].getLastD 0) = 90 := by
    simp
  rw [hlast2]
  rw [if_pos (by norm_num : (90:ℝ) < 100)]
  rw [show ([0, 10, 20, 30, 40, 50, 60, 70, 80, (90:ℝ)] ++ [100]) =
    [0, 10, 20, 30, 40, 50, 60, 70, 80, 90, 100] from rfl]
  rw [resampleLoop_horizontal_step _ _ (by norm_num)]
  rw [resampleLoop_horizontal_step _ _ (by norm_num)]
  rw [resampleLoop_horizontal_step _ _ (by norm_num)]
  rw [resampleLoop_horizontal_step _ _ (by norm_num)]
  rw [resampleLoop_horizontal_step _ _ (by norm_num)]
  rw [resampleLoop_horizontal_step _ _ (by norm_num)]
  rw [resampleLoop_horizontal_step _ _ (by norm_num)]
  rw [resampleLoop_horizontal_step _ _ (by norm_num)]
  rw [resampleLoop_horizontal_step _ _ (by norm_num)]
  rw [resampleLoop_horizontal_step _ _ (by norm_num)]
  rw [resampleLoop_horizontal_step _ _ (by norm_num)]
  rw [show resampleLoop [((0:ℚ), (0:ℚ)), (100, 0)] [(0:ℝ), 100] [] 1 = [] from rfl]

/-! ## fit.py -/

/-- Sum of squared perpendicular distances divided by the point count — the
`mean_sq` of `line_fit_rms` (`fit._perpendicular_distance_point_to_line` is
the same function as `rdp._perpendicular_distance`, embedded once as
`perpendicular_distance_sq`). -/
def line_mean_sq (points : List Point) (ls le : Point) : ℚ :=
  ((points.map (fun p => perpendicular_distance_sq p ls le)).sum) / points.length

/-- `fit.line_fit_rms(points, line_start, line_end)`.  Python returns
`float("inf")` (modelled by `⊤ : EReal`) on an empty list or a degenerate
chord (`distance == 0.0` iff `dist_sq = 0`). -/
noncomputable def line_fit_rms (points : List Point) (ls le : Point) : EReal :=
  if points = [] then ⊤
  else if dist_sq ls le = 0 then ⊤
  else ((Real.sqrt ((line_mean_sq points ls le : ℚ) : ℝ) : ℝ) : EReal)

/-- `fit._solve_3x3(A, b)`: Gaussian elimination without pivoting; `none` when
a pivot is exactly zero.  (The source's `try/except ZeroDivisionError` is dead
code for floats; every division is guarded by a pivot check.) -/
def solve_3x3 (r1 r2 r3 b : ℚ × ℚ × ℚ) : Option (ℚ × ℚ × ℚ) :=
  let a11 := r1.1
  let a12 := r1.2.1
  let a13 := r1.2.2
  let a21 := r2.1
  let a22 := r2.2.1
  let a23 := r2.2.2
  let a31 := r3.1
  let a32 := r3.2.1
  let a33 := r3.2.2
  let b1 := b.1
  let b2 := b.2.1
  let b3 := b.2.2
  if a11 = 0 then none
  else
    let m21 := a21 / a11
    let a22' := a22 - m21 * a12
    let a23' := a23 - m21 * a13
    let b2' := b2 - m21 * b1
    let m31 := a31 / a11
    let a32' := a32 - m31 * a12
    let a33' := a33 - m31 * a13
    let b3' := b3 - m31 * b1
    if a22' = 0 then none
    else
      let m32 := a32' / a22'
      let a33'' := a33' - m32 * a23'
      let b3'' := b3' - m32 * b2'
      if a33'' = 0 then none
      else
        let x3 := b3'' / a33''
        let x2 := (b2' - a23' * x3) / a22'
        let x1 := (b1 - a12 * x2 - a13 * x3) / a11
        some (x1, x2, x3)

/-- The sums and the linear solve of `fit_circle_kasa` (purely rational).
The source builds `M = [[Σx², Σxy, Σx], [Σxy, Σy², Σy], [Σx, Σy, n]]` and
`v = [Σxz, Σyz, Σz]` with `z = x² + y²`, and calls `_solve_3x3(M, v)`. -/
def kasaSolve (points : List Point) : Option (ℚ × ℚ × ℚ) :=
  let sum_x := (points.map (fun p => p.1)).sum
  let sum_y := (points.map (fun p => p.2)).sum
  let sum_x2 := (points.map (fun p => p.1 * p.1)).sum
  let sum_y2 := (points.map (fun p => p.2 * p.2)).sum
  let sum_xy := (points.map (fun p => p.1 * p.2)).sum
  let sum_z := (points.map (fun p => p.1 * p.1 + p.2 * p.2)).sum
  let sum_xz := (points.map (fun p => p.1 * (p.1 * p.1 + p.2 * p.2))).sum
  let sum_yz := (points.map (fun p => p.2 * (p.1 * p.1 + p.2 * p.2))).sum
  solve_3x3 (sum_x2, sum_xy, sum_x) (sum_xy, sum_y2, sum_y)
    (sum_x, sum_y, (points.length : ℚ)) (sum_xz, sum_yz, sum_z)

/-- Radial error accumulator of `fit_circle_kasa`:
`acc = Σ (hypot(x - cx, y - cy) - r)²`. -/
noncomputable def radialAcc (points : List Point) (c : Point) (r : ℝ) : ℝ :=
  (points.map (fun p => (Real.sqrt ((dist_sq c p : ℚ) : ℝ) - r) ^ 2)).sum

/-- `fit.fit_circle_kasa(points)`: `(cx, cy, r, rms)` or `none` on failure
(fewer than 3 points, singular system, or `r² ≤ 0`). -/
noncomputable def fit_circle_kasa (points : List Point) :
    Option (ℚ × ℚ × ℝ × ℝ) :=
  if points.length < 3 then none
  else
    match kasaSolve points with
    | none => none
    | some (A, B, C) =>
      let cx := -A / 2
      let cy := -B / 2
      let r_sq := cx * cx + cy * cy - C
      if r_sq ≤ 0 then none
      else
        let r := Real.sqrt ((r_sq : ℚ) : ℝ)
        some (cx, cy, r, Real.sqrt (radialAcc points (cx, cy) r / (points.length : ℝ)))

/-- Removal of the closing duplicate in `detect_rectangle_from_polygon`
(`if len(pts) >= 2 and pts[0] == pts[-1]: pts = pts[:-1]`). -/
def stripClosingDup (pts : List Point) : List Point :=
  if 2 ≤ pts.length ∧ pts.head? = pts.getLast? then pts.dropLast else pts

/-- `geometry.normalize(u)`: the zero vector when `norm(u) == 0`
(iff `norm_sq u = 0`), else `u / |u|` as a real vector. -/
noncomputable def normalizeV (u : Point) : ℝ × ℝ :=
  if norm_sq u = 0 then (0, 0)
  else ((u.1 : ℝ) / Real.sqrt ((norm_sq u : ℚ) : ℝ),
    (u.2 : ℝ) / Real.sqrt ((norm_sq u : ℚ) : ℝ))

/-- Norm of a real vector (`math.hypot`). -/
noncomputable def normR (u : ℝ × ℝ) : ℝ := Real.sqrt (u.1 ^ 2 + u.2 ^ 2)

/-- `geometry.angle_cos(u, v)`: `1.0` when either vector is zero, else the
cosine of the angle. -/
noncomputable def angle_cos (u v : ℝ × ℝ) : ℝ :=
  if normR u = 0 ∨ normR v = 0 then 1
  else (u.1 * v.1 + u.2 * v.2) / (normR u * normR v)

/-- `fit.detect_rectangle_from_polygon(poly_points)` returning
`(is_rect, score, vertices)` (`score = none` models Python's `None`). -/
noncomputable def detect_rectangle_from_polygon (poly : List Point) :
    Bool × Option ℝ × List Point :=
  if poly.length < 4 then (false, none, [])
  else
    let pts := stripClosingDup poly
    if h4 : pts.length = 4 then
      let p0 := pts.get ⟨0, by omega⟩
      let p1 := pts.get ⟨1, by omega⟩
      let p2 := pts.get ⟨2, by omega⟩
      let p3 := pts.get ⟨3, by omega⟩
      let v0 := vector p0 p1
      let v1 := vector p1 p2
      let v2 := vector p2 p3
      let v3 := vector p3 p0
      let L0 := Real.sqrt ((norm_sq v0 : ℚ) : ℝ)
      let L1 := Real.sqrt ((norm_sq v1 : ℚ) : ℝ)
      let L2 := Real.sqrt ((norm_sq v2 : ℚ) : ℝ)
      let L3 := Real.sqrt ((norm_sq v3 : ℚ) : ℝ)
      if L0 < 10 ∨ L1 < 10 ∨ L2 < 10 ∨ L3 < 10 then (false, none, [])
      else
        let nv0 := normalizeV v0
        let nv1 := normalizeV v1
        let nv2 := normalizeV v2
        let nv3 := normalizeV v3
        let angle_penalty := |angle_cos nv0 nv1| + |angle_cos nv1 nv2| +
          |angle_cos nv2 nv3| + |angle_cos nv3 nv0|
        let parallel_penalty := (1 - |angle_cos nv0 (-nv2.1, -nv2.2)|) +
          (1 - |angle_cos nv1 (-nv3.1, -nv3.2)|)
        let length_penalty := |L0 - L2| / max L0 L2 + |L1 - L3| / max L1 L3
        let score := angle_penalty * 1 + parallel_penalty * 0.5 + length_penalty * 0.5
        if score < 1 then (true, some score, pts) else (false, some score, pts)
    else (false, none, [])

/-- Fit parameters stored in `shape_info`, one variant per candidate kind. -/
inductive FitInfo where
  | line (p0 p1 : Point) (rms_error : ℝ)
  | circle (center : ℚ × ℚ) (radius rms_radial_error relative_error : ℝ)
  | rect (vertices : List Point) (score : ℝ)

/-- The selection loop of `classify_shape`: running best over the candidate
list, updated on strict `<` only. -/
noncomputable def selectBest :
    List (String × ℝ) → Option (String × ℝ) → Option (String × ℝ)
  | [], best => best
  | (t, sc) :: rest, none => selectBest rest (some (t, sc))
  | (t, sc) :: rest, some (bt, bs) =>
    if sc < bs then selectBest rest (some (t, sc))
    else selectBest rest (some (bt, bs))

/-- Line candidate of `classify_shape`: entries added to `norm_scores` and
`shape_info` (insertion-ordered association lists model the Python dicts).
The redundant `line_error is not None` check of the source is always true. -/
noncomputable def lineEntry (pp : List Point) :
    List (String × ℝ) × List (String × FitInfo) :=
  if 2 ≤ pp.length then
    let ls := pp.headD default
    let le := pp.getLastD default
    let lerr := line_fit_rms pp ls le
    if lerr < (((3:ℝ)) : EReal) then
      ([("line", lerr.toReal / 3)], [("line", FitInfo.line ls le lerr.toReal)])
    else ([], [])
  else ([], [])

/-- Circle candidate of `classify_shape`. -/
noncomputable def circleEntry (pp : List Point) :
    List (String × ℝ) × List (String × FitInfo) :=
  if 6 ≤ pp.length then
    match fit_circle_kasa pp with
    | some (cx, cy, r, rms) =>
      if 5 < r then
        let rel := rms / r
        if rel < 0.25 then
          ([("circle", rel / 0.25)], [("circle", FitInfo.circle (cx, cy) r rms rel)])
        else ([], [])
      else ([], [])
    | none => ([], [])
  else ([], [])

/-- Rectangle candidate of `classify_shape`. -/
noncomputable def rectEntry (sp : List Point) (is_closed : Bool) :
    List (String × ℝ) × List (String × FitInfo) :=
  if is_closed = true ∧ 4 ≤ sp.length then
    let res := detect_rectangle_from_polygon sp
    if res.1 = true then
      match res.2.1 with
      | some sc =>
        if sc < 1 then ([("rect", sc / 1)], [("rect", FitInfo.rect res.2.2 sc)])
        else ([], [])
      | none => ([], [])
    else ([], [])
  else ([], [])

/-- `norm_scores` of `classify_shape`, in insertion order line, circle, rect. -/
noncomputable def normScores (pp sp : List Point) (is_closed : Bool) :
    List (String × ℝ) :=
  (lineEntry pp).1 ++ (circleEntry pp).1 ++ (rectEntry sp is_closed).1

/-- `shape_info` of `classify_shape`, in insertion order line, circle, rect. -/
noncomputable def shapeInfos (pp sp : List Point) (is_closed : Bool) :
    List (String × FitInfo) :=
  (lineEntry pp).2 ++ (circleEntry pp).2 ++ (rectEntry sp is_closed).2

/-- `fit.classify_shape(processed_points, simplified_points, is_closed)`. -/
noncomputable def classify_shape (pp sp : List Point) (is_closed : Bool) :
    String × List (String × FitInfo) :=
  if pp.length < 2 ∨ sp.length < 2 then ("polyline", [])
  else
    let ns := normScores pp sp is_closed
    let si := shapeInfos pp sp is_closed
    if ns = [] then ("polyline", si)
    else
      match selectBest ns none with
      | none => ("polyline", si)
      | some (bt, bs) => if 1 < bs then ("polyline", si) else (bt, si)

/-! ### Properties of the selection loop and the classifier -/

theorem selectBest_mem :
    ∀ (l : List (String × ℝ)) (acc : Option (String × ℝ)) (p : String × ℝ),
      selectBest l acc = some p → p ∈ l ∨ acc = some p := by
  intro l
  induction l with
  | nil =>
    intro acc p h
    rw [selectBest] at h
    exact Or.inr h
  | cons q rest ih =>
    intro acc p h
    obtain ⟨t, sc⟩ := q
    cases acc with
    | none =>
      rw [selectBest] at h
      rcases ih _ _ h with hm | he
      · exact Or.inl (List.mem_cons_of_mem _ hm)
      · simp only [Option.some.injEq] at he
        exact Or.inl (he ▸ List.mem_cons_self _ _)
    | some b =>
      obtain ⟨bt, bs⟩ := b
      rw [selectBest] at h
      by_cases hlt : sc < bs
      · rw [if_pos hlt] at h
        rcases ih _ _ h with hm | he
        · exact Or.inl (List.mem_cons_of_mem _ hm)
        · simp only [Option.some.injEq] at he
          exact Or.inl (he ▸ List.mem_cons_self _ _)
      · rw [if_neg hlt] at h
        rcases ih _ _ h with hm | he
        · exact Or.inl (List.mem_cons_of_mem _ hm)
        · exact Or.inr he

theorem selectBest_min :
    ∀ (l : List (String × ℝ)) (acc : Option (String × ℝ)) (p : String × ℝ),
      selectBest l acc = some p →
      (∀ q ∈ l, p.2 ≤ q.2) ∧ (∀ b, acc = some b → p.2 ≤ b.2) := by
  intro l
  induction l with
  | nil =>
    intro acc p h
    rw [selectBest] at h
    refine ⟨fun q hq => absurd hq (List.not_mem_nil q), fun b hb => ?_⟩
    rw [hb] at h
    simp only [Option.some.injEq] at h
    rw [h]
  | cons q rest ih =>
    intro acc p h
    obtain ⟨t, sc⟩ := q
    cases acc with
    | none =>
      rw [selectBest] at h
      obtain ⟨h1, h2⟩ := ih _ _ h
      have hpsc : p.2 ≤ sc := h2 (t, sc) rfl
      refine ⟨fun q hq => ?_, fun b hb => by cases hb⟩
      rcases List.mem_cons.mp hq with rfl | hq
      · exact hpsc
      · exact h1 q hq
    | some b =>
      obtain ⟨bt, bs⟩ := b
      rw [selectBest] at h
      by_cases hlt : sc < bs
      · rw [if_pos hlt] at h
        obtain ⟨h1, h2⟩ := ih _ _ h
        have hpsc : p.2 ≤ sc := h2 (t, sc) rfl
        refine ⟨fun q hq => ?_, fun b hb => ?_⟩
        · rcases List.mem_cons.mp hq with rfl | hq
          · exact hpsc
          · exact h1 q hq
        · simp only [Option.some.injEq] at hb
          subst hb
          exact le_trans hpsc (le_of_lt hlt)
      · rw [if_neg hlt] at h
        obtain ⟨h1, h2⟩ := ih _ _ h
        have hpbs : p.2 ≤ bs := h2 (bt, bs) rfl
        refine ⟨fun q hq => ?_, fun b hb => ?_⟩
        · rcases List.mem_cons.mp hq with rfl | hq
          · exact le_trans hpbs (le_of_not_lt hlt)
          · exact h1 q hq
        · simp only [Option.some.injEq] at hb
          subst hb
          exact hpbs

theorem selectBest_first_aux :
    ∀ (l : List (String × ℝ)) (b p : String × ℝ),
      selectBest l (some b) = some p →
      p = b ∨ ∃ l₁ l₂, l = l₁ ++ p :: l₂ ∧ p.2 < b.2 ∧ ∀ q ∈ l₁, p.2 < q.2 := by
  intro l
  induction l with
  | nil =>
    intro b p h
    rw [selectBest] at h
    simp only [Option.some.injEq] at h
    exact Or.inl h.symm
  | cons q rest ih =>
    intro b p h
    obtain ⟨t, sc⟩ := q
    obtain ⟨bt, bs⟩ := b
    rw [selectBest] at h
    by_cases hlt : sc < bs
    · rw [if_pos hlt] at h
      rcases ih _ _ h with heq | ⟨l₁, l₂, hsplit, hlt2, hall⟩
      · subst heq
        exact Or.inr ⟨[], rest, rfl, hlt, fun q hq => absurd hq (List.not_mem_nil q)⟩
      · refine Or.inr ⟨(t, sc) :: l₁, l₂, by rw [hsplit, List.cons_append], lt_trans hlt2 hlt, ?_⟩
        intro q hq
        rcases List.mem_cons.mp hq with rfl | hq
        · exact hlt2
        · exact hall q hq
    · rw [if_neg hlt] at h
      rcases ih _ _ h with heq | ⟨l₁, l₂, hsplit, hlt2, hall⟩
      · exact Or.inl heq
      · refine Or.inr ⟨(t, sc) :: l₁, l₂, by rw [hsplit, List.cons_append], hlt2, ?_⟩
        intro q hq
        rcases List.mem_cons.mp hq with rfl | hq
        · exact lt_of_lt_of_le hlt2 (le_of_not_lt hlt)
        · exact hall q hq

theorem selectBest_first :
    ∀ (l : List (String × ℝ)) (p : String × ℝ), selectBest l none = some p →
      ∃ l₁ l₂, l = l₁ ++ p :: l₂ ∧ ∀ q ∈ l₁, p.2 < q.2 := by
  intro l p h
  cases l with
  | nil => rw [selectBest] at h; cases h
  | cons q rest =>
    obtain ⟨t, sc⟩ := q
    rw [selectBest] at h
    rcases selectBest_first_aux rest (t, sc) p h with heq | ⟨l₁, l₂, hsplit, hlt2, hall⟩
    · subst heq
      exact ⟨[], rest, rfl, fun q hq => absurd hq (List.not_mem_nil q)⟩
    · refine ⟨(t, sc) :: l₁, l₂, by rw [hsplit, List.cons_append], ?_⟩
      intro q hq
      rcases List.mem_cons.mp hq with rfl | hq
      · exact hlt2
      · exact hall q hq

/-- Inversion principle for `classify_shape`: either it returns the polyline
fallback, or the winner comes from the selection loop with normalized score
at most 1. -/
theorem classify_shape_spec (pp sp : List Point) (c : Bool) :
    classify_shape pp sp c =
        ("polyline", if pp.length < 2 ∨ sp.length < 2 then [] else shapeInfos pp sp c) ∨
      ∃ bt bs, selectBest (normScores pp sp c) none = some (bt, bs) ∧ ¬ 1 < bs ∧
        classify_shape pp sp c = (bt, shapeInfos pp sp c) := by
  by_cases h1 : pp.length < 2 ∨ sp.length < 2
  · left
    simp only [classify_shape, if_pos h1]
  · by_cases h2 : normScores pp sp c = []
    · left
      simp only [classify_shape, if_neg h1, if_pos h2]
    · rcases hsel : selectBest (normScores pp sp c) none with _ | ⟨bt, bs⟩
      · left
        simp only [classify_shape, if_neg h1, if_neg h2, hsel]
      · by_cases h3 : 1 < bs
        · left
          simp only [classify_shape, if_neg h1, if_neg h2, hsel, if_pos h3]
        · right
          refine ⟨bt, bs, ?_, h3, by
            simp only [classify_shape, if_neg h1, if_neg h2, hsel, if_neg h3]⟩
          rfl

theorem lineEntry_key (pp : List Point) :
    ∀ x ∈ (lineEntry pp).1, x.1 = "line" := by
  intro x hx
  unfold lineEntry at hx
  by_cases h2 : 2 ≤ pp.length
  · rw [if_pos h2] at hx
    by_cases h3 : line_fit_rms pp (pp.headD default) (pp.getLastD default) <
        (((3:ℝ)) : EReal)
    · rw [if_pos h3] at hx
      simp only [List.mem_singleton] at hx
      rw [hx]
    · rw [if_neg h3] at hx
      simp at hx
  · rw [if_neg h2] at hx
    simp at hx

theorem circleEntry_key (pp : List Point) :
    ∀ x ∈ (circleEntry pp).1, x.1 = "circle" := by
  intro x hx
  unfold circleEntry at hx
  by_cases h6 : 6 ≤ pp.length
  · rw [if_pos h6] at hx
    rcases hfit : fit_circle_kasa pp with _ | ⟨cx, cy, r, rms⟩ <;> rw [hfit] at hx
    · simp at hx
    · simp only [] at hx
      by_cases h5 : 5 < r
      · rw [if_pos h5] at hx
        by_cases hrel : rms / r < 0.25
        · rw [if_pos hrel] at hx
          simp only [List.mem_singleton] at hx
          rw [hx]
        · rw [if_neg hrel] at hx
          simp at hx
      · rw [if_neg h5] at hx
        simp at hx
  · rw [if_neg h6] at hx
    simp at hx

theorem rectEntry_key (sp : List Point) (c : Bool) :
    ∀ x ∈ (rectEntry sp c).1, x.1 = "rect" := by
  intro x hx
  unfold rectEntry at hx
  by_cases hcl : c = true ∧ 4 ≤ sp.length
  · rw [if_pos hcl] at hx
    by_cases hisr : (detect_rectangle_from_polygon sp).1 = true
    · rw [if_pos hisr] at hx
      rcases hdet : (detect_rectangle_from_polygon sp).2.1 with _ | sc <;>
        rw [hdet] at hx
      · simp at hx
      · simp only [] at hx
        by_cases hsc : sc < 1
        · rw [if_pos hsc] at hx
          simp only [List.mem_singleton] at hx
          rw [hx]
        · rw [if_neg hsc] at hx
          simp at hx
    · rw [if_neg hisr] at hx
      simp at hx
  · rw [if_neg hcl] at hx
    simp at hx

theorem normScores_key (pp sp : List Point) (c : Bool) :
    ∀ x ∈ normScores pp sp c, x.1 = "line" ∨ x.1 = "circle" ∨ x.1 = "rect" := by
  intro x hx
  unfold normScores at hx
  rcases List.mem_append.mp hx with hx | hx
  · rcases List.mem_append.mp hx with hx | hx
    · exact Or.inl (lineEntry_key pp x hx)
    · exact Or.inr (Or.inl (circleEntry_key pp x hx))
  · exact Or.inr (Or.inr (rectEntry_key sp c x hx))

/-- Claim C7 (classifier totality and degenerate input): `classify_shape`
always returns a shape type among line/circle/rect/polyline (it is a total
function, so it never raises), and returns `("polyline", {})` whenever either
input list has fewer than 2 points. -/
theorem claim_C7_classify_total (pp sp : List Point) (c : Bool) :
    ((classify_shape pp sp c).1 = "line" ∨ (classify_shape pp sp c).1 = "circle" ∨
      (classify_shape pp sp c).1 = "rect" ∨ (classify_shape pp sp c).1 = "polyline") ∧
      ((pp.length < 2 ∨ sp.length < 2) → classify_shape pp sp c = ("polyline", [])) := by
  constructor
  · rcases classify_shape_spec pp sp c with h | ⟨bt, bs, hsel, hbs, h⟩
    · right; right; right
      rw [h]
    · rcases selectBest_mem _ _ _ hsel with hm | habs
      · have hkey := normScores_key pp sp c _ hm
        rw [h]
        rcases hkey with h1 | h1 | h1
        · exact Or.inl h1
        · exact Or.inr (Or.inl h1)
        · exact Or.inr (Or.inr (Or.inl h1))
      · cases habs
  · intro hshort
    simp only [classify_shape, if_pos hshort]

theorem claim_C7_witness : classify_shape [] [] false = ("polyline", []) :=
  (claim_C7_classify_total [] [] false).2 (Or.inl (by simp))

/-- Evaluation order of the classifier's candidates: line before circle before
rectangle. -/
def shapePriority (t : String) : ℕ :=
  if t = "line" then 0 else if t = "circle" then 1 else if t = "rect" then 2 else 3

theorem normScores_pairwise (pp sp : List Point) (c : Bool) :
    (normScores pp sp c).Pairwise
      (fun a b => shapePriority a.1 ≤ shapePriority b.1) := by
  unfold normScores
  refine List.pairwise_append.mpr ⟨List.pairwise_append.mpr ⟨?_, ?_, ?_⟩, ?_, ?_⟩
  · exact List.pairwise_of_forall_mem_list (fun a ha b hb => by
      rw [lineEntry_key pp a ha, lineEntry_key pp b hb])
  · exact List.pairwise_of_forall_mem_list (fun a ha b hb => by
      rw [circleEntry_key pp a ha, circleEntry_key pp b hb])
  · intro a ha b hb
    rw [lineEntry_key pp a ha, circleEntry_key pp b hb]
    simp [shapePriority]
  · exact List.pairwise_of_forall_mem_list (fun a ha b hb => by
      rw [rectEntry_key sp c a ha, rectEntry_key sp c b hb])
  · intro a ha b hb
    rw [rectEntry_key sp c b hb]
    rcases List.mem_append.mp ha with ha | ha
    · rw [lineEntry_key pp a ha]
      simp [shapePriority]
    · rw [circleEntry_key pp a ha]
      simp [shapePriority]

/-- Claim C5 (classifier tie-break): whenever `classify_shape` does not fall
back to "polyline", its winner carries the minimal normalized score among all
candidates, and any candidate tied with that score comes no earlier in
evaluation order (line before circle before rectangle). -/
theorem claim_C5_classifier_tiebreak (pp sp : List Point) (c : Bool)
    (h : (classify_shape pp sp c).1 ≠ "polyline") :
    ∃ bs, ((classify_shape pp sp c).1, bs) ∈ normScores pp sp c ∧
      (∀ q ∈ normScores pp sp c, bs ≤ q.2) ∧
      (∀ q ∈ normScores pp sp c, q.2 = bs →
        shapePriority (classify_shape pp sp c).1 ≤ shapePriority q.1) := by
  rcases classify_shape_spec pp sp c with hspec | ⟨bt, bs, hsel, hbs, hcl⟩
  · exact absurd (by rw [hspec]) h
  · have hfst : (classify_shape pp sp c).1 = bt := by rw [hcl]
    refine ⟨bs, ?_, ?_, ?_⟩
    · rw [hfst]
      rcases selectBest_mem _ _ _ hsel with hm | habs
      · exact hm
      · cases habs
    · intro q hq
      exact (selectBest_min _ _ _ hsel).1 q hq
    · intro q hq hqs
      obtain ⟨l₁, l₂, hsplit, hall⟩ := selectBest_first _ _ hsel
      have hq' : q ∈ l₁ ++ (bt, bs) :: l₂ := hsplit ▸ hq
      rcases List.mem_append.mp hq' with hq1 | hq2
      · have hlt := hall q hq1
        rw [hqs] at hlt
        exact absurd hlt (lt_irrefl _)
      · rcases List.mem_cons.mp hq2 with rfl | hq3
        · rw [hfst]
        · have hpw := normScores_pairwise pp sp c
          rw [hsplit] at hpw
          have hpw2 : ((bt, bs) :: l₂).Pairwise
              (fun a b => shapePriority a.1 ≤ shapePriority b.1) :=
            (List.pairwise_append.mp hpw).2.1
          have hle := (List.pairwise_cons.mp hpw2).1 q hq3
          rw [hfst]
          exact hle

theorem line_fit_rms_example :
    line_fit_rms [((0:ℚ), (0:ℚ)), (10, 0)] ((0:ℚ), (0:ℚ)) (10, 0) =
      (((0:ℝ)) : EReal) := by
  unfold line_fit_rms
  rw [if_neg (by simp), if_neg (by norm_num [dist_sq])]
  rw [show line_mean_sq [((0:ℚ), (0:ℚ)), (10, 0)] ((0:ℚ), (0:ℚ)) (10, 0) = 0 from by
    norm_num [line_mean_sq, perpendicular_distance_sq]]
  norm_num

theorem lineEntry_example :
    (lineEntry [((0:ℚ), (0:ℚ)), (10, 0)]).1 = [("line", (0:ℝ))] := by
  unfold lineEntry
  rw [if_pos (by norm_num : 2 ≤ ([((0:ℚ), (0:ℚ)), (10, 0)] : List Point).length)]
  have hhd : ([((0:ℚ), (0:ℚ)), (10, 0)] : List Point).headD default = ((0:ℚ), (0:ℚ)) := rfl
  have hld : ([((0:ℚ), (0:ℚ)), (10, 0)] : List Point).getLastD default = ((10:ℚ), (0:ℚ)) := rfl
  simp only [hhd, hld, line_fit_rms_example]
  rw [if_pos (EReal.coe_lt_coe_iff.mpr (by norm_num : (0:ℝ) < 3))]
  simp

theorem classify_line_example :
    (classify_shape [((0:ℚ), (0:ℚ)), (10, 0)] [((0:ℚ), (0:ℚ)), (10, 0)] false).1 =
      "line" := by
  have h2 : (circleEntry [((0:ℚ), (0:ℚ)), (10, 0)]).1 = [] := by
    unfold circleEntry
    rw [if_neg (by norm_num)]
  have h3 : (rectEntry [((0:ℚ), (0:ℚ)), (10, 0)] false).1 = [] := by
    unfold rectEntry
    rw [if_neg (by simp)]
  have hns : normScores [((0:ℚ), (0:ℚ)), (10, 0)] [((0:ℚ), (0:ℚ)), (10, 0)] false =
      [("line", (0:ℝ))] := by
    unfold normScores
    rw [lineEntry_example, h2, h3]
    simp
  have hsel : selectBest [("line", (0:ℝ))] none = some ("line", 0) := by
    rw [selectBest, selectBest]
  have hlen : ¬(([((0:ℚ), (0:ℚ)), (10, 0)] : List Point).length < 2 ∨
      ([((0:ℚ), (0:ℚ)), (10, 0)] : List Point).length < 2) := by simp
  have hne : normScores [((0:ℚ), (0:ℚ)), (10, 0)] [((0:ℚ), (0:ℚ)), (10, 0)] false ≠ [] := by
    rw [hns]
    simp
  have hcl : classify_shape [((0:ℚ), (0:ℚ)), (10, 0)] [((0:ℚ), (0:ℚ)), (10, 0)] false =
      ("line", shapeInfos [((0:ℚ), (0:ℚ)), (10, 0)] [((0:ℚ), (0:ℚ)), (10, 0)] false) := by
    simp only [classify_shape, if_neg hlen, if_neg hne, hns, hsel]
    rw [if_neg (show ¬([(("line", (0:ℝ)))] = ([] : List (String × ℝ))) by simp),
      if_neg (by norm_num : ¬(1:ℝ) < 0)]
  rw [hcl]

theorem claim_C5_witness :
    ∃ bs, ((classify_shape [((0:ℚ), (0:ℚ)), (10, 0)] [((0:ℚ), (0:ℚ)), (10, 0)] false).1, bs) ∈
        normScores [((0:ℚ), (0:ℚ)), (10, 0)] [((0:ℚ), (0:ℚ)), (10, 0)] false ∧
      (∀ q ∈ normScores [((0:ℚ), (0:ℚ)), (10, 0)] [((0:ℚ), (0:ℚ)), (10, 0)] false,
        bs ≤ q.2) ∧
      (∀ q ∈ normScores [((0:ℚ), (0:ℚ)), (10, 0)] [((0:ℚ), (0:ℚ)), (10, 0)] false,
        q.2 = bs →
        shapePriority (classify_shape [((0:ℚ), (0:ℚ)), (10, 0)]
          [((0:ℚ), (0:ℚ)), (10, 0)] false).1 ≤ shapePriority q.1) :=
  claim_C5_classifier_tiebreak [((0:ℚ), (0:ℚ)), (10, 0)] [((0:ℚ), (0:ℚ)), (10, 0)] false
    (by rw [classify_line_example]; simp)

/-- Claim C8 (rectangle 4-vertex requirement): `detect_rectangle_from_polygon`
rejects every polygon whose vertex count, after dropping a trailing point equal
to the first, differs from exactly 4; hence simplified polygons with 3 or 5+
core vertices are never rectangles. -/
theorem claim_C8_rect_four_vertices (poly : List Point)
    (h : (stripClosingDup poly).length ≠ 4) :
    (detect_rectangle_from_polygon poly).1 = false := by
  unfold detect_rectangle_from_polygon
  by_cases h4 : poly.length < 4
  · rw [if_pos h4]
  · rw [if_neg h4]
    simp only [dif_neg h]

theorem claim_C8_witness :
    (detect_rectangle_from_polygon [((0:ℚ), (0:ℚ)), (30, 0), (30, 30)]).1 = false :=
  claim_C8_rect_four_vertices [((0:ℚ), (0:ℚ)), (30, 0), (30, 30)]
    (by norm_num [stripClosingDup, Prod.ext_iff])

theorem circleEntry_info_key (pp : List Point) :
    ∀ x ∈ (circleEntry pp).2, x.1 = "circle" := by
  intro x hx
  unfold circleEntry at hx
  by_cases h6 : 6 ≤ pp.length
  · rw [if_pos h6] at hx
    rcases hfit : fit_circle_kasa pp with _ | ⟨cx, cy, r, rms⟩ <;> rw [hfit] at hx
    · simp at hx
    · simp only [] at hx
      by_cases h5 : 5 < r
      · rw [if_pos h5] at hx
        by_cases hrel : rms / r < 0.25
        · rw [if_pos hrel] at hx
          simp only [List.mem_singleton] at hx
          rw [hx]
        · rw [if_neg hrel] at hx
          simp at hx
      · rw [if_neg h5] at hx
        simp at hx
  · rw [if_neg h6] at hx
    simp at hx

theorem rectEntry_info_key (sp : List Point) (c : Bool) :
    ∀ x ∈ (rectEntry sp c).2, x.1 = "rect" := by
  intro x hx
  unfold rectEntry at hx
  by_cases hcl : c = true ∧ 4 ≤ sp.length
  · rw [if_pos hcl] at hx
    by_cases hisr : (detect_rectangle_from_polygon sp).1 = true
    · rw [if_pos hisr] at hx
      rcases hdet : (detect_rectangle_from_polygon sp).2.1 with _ | sc <;>
        rw [hdet] at hx
      · simp at hx
      · simp only [] at hx
        by_cases hsc : sc < 1
        · rw [if_pos hsc] at hx
          simp only [List.mem_singleton] at hx
          rw [hx]
        · rw [if_neg hsc] at hx
          simp at hx
    · rw [if_neg hisr] at hx
      simp at hx
  · rw [if_neg hcl] at hx
    simp at hx

theorem lineEntry_degenerate {pp : List Point} (hend : pp.head? = pp.getLast?) :
    lineEntry pp = ([], []) := by
  unfold lineEntry
  by_cases h2 : 2 ≤ pp.length
  · rw [if_pos h2]
    have hne : pp ≠ [] := by
      intro h
      rw [h] at h2
      simp at h2
    have hsame : pp.headD default = pp.getLastD default := by
      have ha := head?_eq_headD hne
      have hb := getLast?_eq_getLastD hne
      rw [ha, hb] at hend
      exact Option.some.inj hend
    have hrms : line_fit_rms pp (pp.headD default) (pp.getLastD default) = ⊤ := by
      unfold line_fit_rms
      rw [if_neg hne, if_pos (by rw [hsame]; simp [dist_sq])]
    simp only [hrms, if_neg not_top_lt]
  · rw [if_neg h2]

/-- Claim C9 (degenerate chord excludes the line candidate): `line_fit_rms`
returns positive infinity when the point list is empty or the chord endpoints
coincide; consequently, for every processed point list whose first and last
points are equal, `classify_shape` never returns "line" and "line" never
appears in its `shape_info`. -/
theorem claim_C9_degenerate_line :
    (∀ (ps : List Point) (ls le : Point), ps = [] ∨ ls = le →
      line_fit_rms ps ls le = ⊤) ∧
    (∀ (pp sp : List Point) (c : Bool), pp.head? = pp.getLast? →
      (classify_shape pp sp c).1 ≠ "line" ∧
        ∀ q ∈ (classify_shape pp sp c).2, q.1 ≠ "line") := by
  constructor
  · intro ps ls le h
    unfold line_fit_rms
    rcases h with rfl | rfl
    · rw [if_pos rfl]
    · by_cases hps : ps = []
      · rw [if_pos hps]
      · rw [if_neg hps, if_pos (by simp [dist_sq])]
  · intro pp sp c hend
    have hline := lineEntry_degenerate hend
    have hinfos : ∀ q ∈ shapeInfos pp sp c, q.1 ≠ "line" := by
      intro q hq
      unfold shapeInfos at hq
      rw [hline] at hq
      simp only [List.nil_append] at hq
      rcases List.mem_append.mp hq with hmc | hmr
      · rw [circleEntry_info_key pp _ hmc]
        simp
      · rw [rectEntry_info_key sp c _ hmr]
        simp
    constructor
    · rcases classify_shape_spec pp sp c with hspec | ⟨bt, bs, hsel, hbs, hcl⟩
      · rw [hspec]
        simp
      · rw [hcl]
        rcases selectBest_mem _ _ _ hsel with hm | habs
        · have hm' : (bt, bs) ∈ normScores pp sp c := hm
          unfold normScores at hm'
          rw [hline] at hm'
          simp only [List.nil_append] at hm'
          rcases List.mem_append.mp hm' with hmc | hmr
          · have hk := circleEntry_key pp _ hmc
            simp only [] at hk
            show bt ≠ "line"
            rw [hk]
            simp
          · have hk := rectEntry_key sp c _ hmr
            simp only [] at hk
            show bt ≠ "line"
            rw [hk]
            simp
        · cases habs
    · intro q hq
      rcases classify_shape_spec pp sp c with hspec | ⟨bt, bs, hsel, hbs, hcl⟩
      · rw [hspec] at hq
        by_cases hsh : pp.length < 2 ∨ sp.length < 2
        · simp only [if_pos hsh] at hq
          exact absurd hq (List.not_mem_nil q)
        · simp only [if_neg hsh] at hq
          exact hinfos q hq
      · rw [hcl] at hq
        exact hinfos q hq

theorem claim_C9_witness :
    line_fit_rms [((1:ℚ), (2:ℚ))] ((3:ℚ), (4:ℚ)) ((3:ℚ), (4:ℚ)) = ⊤ ∧
      (classify_shape [((0:ℚ), (0:ℚ)), (3, 4), (0, 0)]
        [((0:ℚ), (0:ℚ)), (3, 4), (0, 0)] true).1 ≠ "line" :=
  ⟨claim_C9_degenerate_line.1 [((1:ℚ), (2:ℚ))] ((3:ℚ), (4:ℚ)) ((3:ℚ), (4:ℚ))
      (Or.inr rfl),
    (claim_C9_degenerate_line.2 [((0:ℚ), (0:ℚ)), (3, 4), (0, 0)]
      [((0:ℚ), (0:ℚ)), (3, 4), (0, 0)] true (by rfl)).1⟩

/-! ### Claim C1: the circle-recovery test against `fit_circle_kasa`

`pts12` lists 12 points lying *exactly* on the circle of radius 50 centred at
`(100, 100)` (integer Pythagorean points: offsets `(±30, ±40)`, `(±40, ±30)`,
`(±50, 0)`, `(0, ±50)`), ordered around the circle. -/
def pts12 : List Point :=
  [(130, 140), (140, 130), (150, 100), (140, 70), (130, 60), (100, 50),
    (70, 60), (60, 70), (50, 100), (60, 130), (70, 140), (100, 150)]

theorem kasaSolve_pts12 : kasaSolve pts12 = some (200, 200, -17500) := by
  norm_num [kasaSolve, solve_3x3, pts12]

theorem fit_circle_kasa_pts12 :
    fit_circle_kasa pts12 = some (-100, -100, Real.sqrt 37500,
      Real.sqrt (radialAcc pts12 (-100, -100) (Real.sqrt 37500) / 12)) := by
  unfold fit_circle_kasa
  rw [if_neg (by norm_num [pts12])]
  rw [kasaSolve_pts12]
  simp only []
  rw [if_neg (by norm_num : ¬((-200 / 2 * (-200 / 2) + -200 / 2 * (-200 / 2) -
    -17500 : ℚ) ≤ 0))]
  norm_num [pts12]

theorem radialAcc_pts12_lower :
    28125 ≤ radialAcc pts12 (-100, -100) (Real.sqrt 37500) := by
  have hr : Real.sqrt 37500 ≤ 194 := by
    calc Real.sqrt 37500 ≤ Real.sqrt (194 ^ 2) := Real.sqrt_le_sqrt (by norm_num)
      _ = 194 := Real.sqrt_sq (by norm_num)
  have h1 : (332:ℝ) ≤ Real.sqrt 110500 := by
    calc (332:ℝ) = Real.sqrt (332 ^ 2) := (Real.sqrt_sq (by norm_num)).symm
      _ ≤ Real.sqrt 110500 := Real.sqrt_le_sqrt (by norm_num)
  have hterm : (19044:ℝ) ≤ (Real.sqrt 110500 - Real.sqrt 37500) ^ 2 := by
    have hdiff : (138:ℝ) ≤ Real.sqrt 110500 - Real.sqrt 37500 := by linarith
    calc (19044:ℝ) = 138 ^ 2 := by norm_num
      _ ≤ (Real.sqrt 110500 - Real.sqrt 37500) ^ 2 :=
        pow_le_pow_left₀ (by norm_num) hdiff 2
  simp only [radialAcc, pts12, List.map_cons, List.map_nil, List.sum_cons,
    List.sum_nil]
  norm_num [dist_sq]
  linarith [hterm,
    sq_nonneg (Real.sqrt 102500 - Real.sqrt 37500),
    sq_nonneg (Real.sqrt 86500 - Real.sqrt 37500),
    sq_nonneg (Real.sqrt 78500 - Real.sqrt 37500),
    sq_nonneg (Real.sqrt 62500 - Real.sqrt 37500),
    sq_nonneg (Real.sqrt 54500 - Real.sqrt 37500)]

theorem kasa_rms_pts12_large :
    Real.sqrt 37500 / 4 ≤
      Real.sqrt (radialAcc pts12 (-100, -100) (Real.sqrt 37500) / 12) := by
  have hq : Real.sqrt 37500 / 4 = Real.sqrt (37500 / 16) := by
    rw [show (37500:ℝ) / 16 = 37500 * (1 / 4) ^ 2 by norm_num,
      Real.sqrt_mul (by norm_num), Real.sqrt_sq (by norm_num)]
    ring
  rw [hq]
  apply Real.sqrt_le_sqrt
  have := radialAcc_pts12_lower
  linarith

theorem line_mean_sq_pts12 :
    line_mean_sq pts12 ((130:ℚ), (140:ℚ)) ((100:ℚ), (150:ℚ)) = 3500 := by
  norm_num [line_mean_sq, perpendicular_distance_sq, pts12]

theorem lineEntry_pts12 : lineEntry pts12 = ([], []) := by
  have hhd : pts12.headD default = ((130:ℚ), (140:ℚ)) := rfl
  have hgl : pts12.getLastD default = ((100:ℚ), (150:ℚ)) := rfl
  have hrms_not : ¬ (line_fit_rms pts12 ((130:ℚ), (140:ℚ)) ((100:ℚ), (150:ℚ)) <
      (((3:ℝ)) : EReal)) := by
    unfold line_fit_rms
    rw [if_neg (by simp [pts12]), if_neg (by norm_num [dist_sq]), line_mean_sq_pts12]
    intro hcon
    rw [EReal.coe_lt_coe_iff] at hcon
    have h9 : ((3500:ℚ) : ℝ) = 3500 := by norm_num
    rw [h9] at hcon
    rw [Real.sqrt_lt' (by norm_num : (0:ℝ) < 3)] at hcon
    norm_num at hcon
  unfold lineEntry
  rw [if_pos (by norm_num [pts12])]
  simp only [hhd, hgl]
  rw [if_neg hrms_not]

theorem circleEntry_pts12 : circleEntry pts12 = ([], []) := by
  have hrpos : 0 < Real.sqrt 37500 := Real.sqrt_pos.mpr (by norm_num)
  have hrel_not : ¬ (Real.sqrt (radialAcc pts12 (-100, -100) (Real.sqrt 37500) / 12) /
      Real.sqrt 37500 < 0.25) := by
    intro hcon
    rw [div_lt_iff₀ hrpos] at hcon
    have hlarge := kasa_rms_pts12_large
    linarith
  unfold circleEntry
  rw [if_pos (by norm_num [pts12])]
  rw [fit_circle_kasa_pts12]
  simp only []
  rw [if_pos ((Real.lt_sqrt (by norm_num)).mpr (by norm_num : (5:ℝ) ^ 2 < 37500))]
  rw [if_neg hrel_not]

theorem rectEntry_pts12 : rectEntry pts12 false = ([], []) := by
  unfold rectEntry
  rw [if_neg (by simp)]

/-- Claim C1 (circle recovery) is violated by the code: `fit_circle_kasa` on
12 points sampled exactly on the circle of radius 50 centred at `(100, 100)`
returns the *negated* centre `(-100, -100)` and radius `√37500 ≈ 193.6`
(instead of `(100, 100)` and `50` within `1e-3`), its radial RMS error is at
least `√37500 / 4` (instead of `< 1e-6`), the circle candidate therefore fails
its own `relative_error < 0.25` acceptance test, and `classify_shape` returns
`"polyline"` (instead of `"circle"`).  The slip: `_solve_3x3` is fed
`v = [Σxz, Σyz, Σz]` with a positive sign, while decoding `cx = -A/2`,
`cy = -B/2`, `r² = cx² + cy² - C` assumes the normal equations of
`x² + y² + A·x + B·y + C = 0`, whose right-hand side is `-v`. -/
theorem claim_C1_circle_recovery_bug :
    (fit_circle_kasa pts12 = some (-100, -100, Real.sqrt 37500,
        Real.sqrt (radialAcc pts12 (-100, -100) (Real.sqrt 37500) / 12)) ∧
      Real.sqrt 37500 / 4 ≤
        Real.sqrt (radialAcc pts12 (-100, -100) (Real.sqrt 37500) / 12)) ∧
    classify_shape pts12 pts12 false = ("polyline", []) := by
  refine ⟨⟨fit_circle_kasa_pts12, kasa_rms_pts12_large⟩, ?_⟩
  have hns : normScores pts12 pts12 false = [] := by
    unfold normScores
    rw [lineEntry_pts12, circleEntry_pts12, rectEntry_pts12]
    simp
  have hsi : shapeInfos pts12 pts12 false = [] := by
    unfold shapeInfos
    rw [lineEntry_pts12, circleEntry_pts12, rectEntry_pts12]
    simp
  have hlen : ¬ (pts12.length < 2 ∨ pts12.length < 2) := by norm_num [pts12]
  simp only [classify_shape, if_neg hlen, if_pos hns, hns, hsi, if_true]

/-! ## shapes.py

Canonical shapes carry real-valued geometry (their parameters come from the
classifier, e.g. an irrational fitted radius).  `move` is modelled
functionally (the Python mutates in place); `contains_point` is the
mathematical predicate decided by the source's float comparisons. -/

/-- `geometry.distance` on real points (`math.hypot`). -/
noncomputable def distR (p q : ℝ × ℝ) : ℝ :=
  Real.sqrt ((q.1 - p.1) ^ 2 + (q.2 - p.2) ^ 2)

/-- Python's `min` over a list (junk value 0 on `[]`; callers guarantee
non-empty input, cf. `geometry.bounding_box`). -/
noncomputable def listMin : List ℝ → ℝ
  | [] => 0
  | x :: xs => xs.foldl min x

/-- Python's `max` over a list (junk value 0 on `[]`). -/
noncomputable def listMax : List ℝ → ℝ
  | [] => 0
  | x :: xs => xs.foldl max x

/-- `geometry.bounding_box(points) = (min_x, min_y, max_x, max_y)`. -/
noncomputable def bounding_box (points : List (ℝ × ℝ)) : ℝ × ℝ × ℝ × ℝ :=
  (listMin (points.map (fun p => p.1)), listMin (points.map (fun p => p.2)),
    listMax (points.map (fun p => p.1)), listMax (points.map (fun p => p.2)))

/-- `shapes.LineShape`. -/
structure LineShape where
  p0 : ℝ × ℝ
  p1 : ℝ × ℝ
  color : ℤ × ℤ × ℤ
  width : ℝ

def LineShape.move (s : LineShape) (dx dy : ℝ) : LineShape :=
  { s with p0 := (s.p0.1 + dx, s.p0.2 + dy), p1 := (s.p1.1 + dx, s.p1.2 + dy) }

def LineShape.contains_point (s : LineShape) (pos : ℝ × ℝ) : Prop :=
  let dx := s.p1.1 - s.p0.1
  let dy := s.p1.2 - s.p0.2
  if dx = 0 ∧ dy = 0 then
    distR pos s.p0 ≤ max (s.width + 4) 6
  else
    let t := ((pos.1 - s.p0.1) * dx + (pos.2 - s.p0.2) * dy) / (dx * dx + dy * dy)
    let tc := max 0 (min 1 t)
    distR pos (s.p0.1 + tc * dx, s.p0.2 + tc * dy) ≤ max (s.width + 4) 6

/-- `shapes.CircleShape`. -/
structure CircleShape where
  cx : ℝ
  cy : ℝ
  radius : ℝ
  color : ℤ × ℤ × ℤ
  width : ℝ

def CircleShape.move (s : CircleShape) (dx dy : ℝ) : CircleShape :=
  { s with cx := s.cx + dx, cy := s.cy + dy }

def CircleShape.contains_point (s : CircleShape) (pos : ℝ × ℝ) : Prop :=
  |distR (s.cx, s.cy) pos - s.radius| ≤ max (s.width + 4) 8

/-- `shapes.RectShape` (axis-aligned, top-left corner plus size). -/
structure RectShape where
  x : ℝ
  y : ℝ
  w : ℝ
  h : ℝ
  color : ℤ × ℤ × ℤ
  width : ℝ

def RectShape.move (s : RectShape) (dx dy : ℝ) : RectShape :=
  { s with x := s.x + dx, y := s.y + dy }

def RectShape.contains_point (s : RectShape) (pos : ℝ × ℝ) : Prop :=
  let margin := max (s.width + 4) 8
  s.x - margin ≤ pos.1 ∧ pos.1 ≤ s.x + s.w + margin ∧
    s.y - margin ≤ pos.2 ∧ pos.2 ≤ s.y + s.h + margin

/-- `shapes.PolylineShape`. -/
structure PolylineShape where
  points : List (ℝ × ℝ)
  is_closed : Bool
  color : ℤ × ℤ × ℤ
  width : ℝ

def PolylineShape.move (s : PolylineShape) (dx dy : ℝ) : PolylineShape :=
  { s with points := s.points.map (fun p => (p.1 + dx, p.2 + dy)) }

def PolylineShape.contains_point (s : PolylineShape) (pos : ℝ × ℝ) : Prop :=
  if s.points = [] then False
  else
    let bb := bounding_box s.points
    let margin := max (s.width + 6) 10
    bb.1 - margin ≤ pos.1 ∧ pos.1 ≤ bb.2.2.1 + margin ∧
      bb.2.1 - margin ≤ pos.2 ∧ pos.2 ≤ bb.2.2.2 + margin

theorem distR_translate (a b : ℝ × ℝ) (dx dy : ℝ) :
    distR (a.1 + dx, a.2 + dy) (b.1 + dx, b.2 + dy) = distR a b := by
  unfold distR
  congr 1
  ring

theorem le_iff_of_eq {a b c : ℝ} (h : a = b) : a ≤ c ↔ b ≤ c := by rw [h]

theorem listMin_translate (l : List ℝ) (d : ℝ) (h : l ≠ []) :
    listMin (l.map (fun x => x + d)) = listMin l + d := by
  cases l with
  | nil => exact absurd rfl h
  | cons x xs =>
    simp only [listMin, List.map_cons]
    induction xs generalizing x with
    | nil => simp [listMin]
    | cons y ys ih =>
      simp only [List.foldl_cons, List.map_cons]
      rw [min_add_add_right]
      exact ih (min x y) (by simp)

theorem listMax_translate (l : List ℝ) (d : ℝ) (h : l ≠ []) :
    listMax (l.map (fun x => x + d)) = listMax l + d := by
  cases l with
  | nil => exact absurd rfl h
  | cons x xs =>
    simp only [listMax, List.map_cons]
    induction xs generalizing x with
    | nil => simp [listMax]
    | cons y ys ih =>
      simp only [List.foldl_cons, List.map_cons]
      rw [max_add_add_right]
      exact ih (max x y) (by simp)

/-- Claim C10 (hit-testing commutes with translation): for each canonical
shape variant, moving the shape by `(dx, dy)` and querying the translated
point gives the same containment answer as querying the original point on the
unmoved shape (over exact real arithmetic). -/
theorem claim_C10_move_contains_point :
    (∀ (s : LineShape) (dx dy : ℝ) (pos : ℝ × ℝ),
      (s.move dx dy).contains_point (pos.1 + dx, pos.2 + dy) ↔
        s.contains_point pos) ∧
    (∀ (s : CircleShape) (dx dy : ℝ) (pos : ℝ × ℝ),
      (s.move dx dy).contains_point (pos.1 + dx, pos.2 + dy) ↔
        s.contains_point pos) ∧
    (∀ (s : RectShape) (dx dy : ℝ) (pos : ℝ × ℝ),
      (s.move dx dy).contains_point (pos.1 + dx, pos.2 + dy) ↔
        s.contains_point pos) ∧
    (∀ (s : PolylineShape) (dx dy : ℝ) (pos : ℝ × ℝ),
      (s.move dx dy).contains_point (pos.1 + dx, pos.2 + dy) ↔
        s.contains_point pos) := by
  refine ⟨?_, ?_, ?_, ?_⟩
  · intro s dx dy pos
    simp only [LineShape.move, LineShape.contains_point]
    have hdx : s.p1.1 + dx - (s.p0.1 + dx) = s.p1.1 - s.p0.1 := by ring
    have hdy : s.p1.2 + dy - (s.p0.2 + dy) = s.p1.2 - s.p0.2 := by ring
    rw [hdx, hdy]
    by_cases hc : s.p1.1 - s.p0.1 = 0 ∧ s.p1.2 - s.p0.2 = 0
    · rw [if_pos hc, if_pos hc]
      exact le_iff_of_eq (distR_translate pos s.p0 dx dy)
    · rw [if_neg hc, if_neg hc]
      refine le_iff_of_eq ?_
      unfold distR
      congr 1
      ring
  · intro s dx dy pos
    simp only [CircleShape.move, CircleShape.contains_point]
    have hd : distR (s.cx + dx, s.cy + dy) (pos.1 + dx, pos.2 + dy) =
        distR (s.cx, s.cy) pos := distR_translate (s.cx, s.cy) pos dx dy
    rw [hd]
  · intro s dx dy pos
    simp only [RectShape.move, RectShape.contains_point]
    constructor
    · rintro ⟨h1, h2, h3, h4⟩
      exact ⟨by linarith, by linarith, by linarith, by linarith⟩
    · rintro ⟨h1, h2, h3, h4⟩
      exact ⟨by linarith, by linarith, by linarith, by linarith⟩
  · intro s dx dy pos
    simp only [PolylineShape.move, PolylineShape.contains_point]
    by_cases hnil : s.points = []
    · rw [hnil]
      simp
    · rw [if_neg (by simp [hnil] : ¬ s.points.map (fun p => (p.1 + dx, p.2 + dy)) = []),
        if_neg hnil]
      have hx : (s.points.map (fun p => (p.1 + dx, p.2 + dy))).map (fun p => p.1) =
          (s.points.map (fun p => p.1)).map (fun x => x + dx) := by
        simp [List.map_map]
      have hy : (s.points.map (fun p => (p.1 + dx, p.2 + dy))).map (fun p => p.2) =
          (s.points.map (fun p => p.2)).map (fun y => y + dy) := by
        simp [List.map_map]
      have hxne : s.points.map (fun p => p.1) ≠ [] := by simp [hnil]
      have hyne : s.points.map (fun p => p.2) ≠ [] := by simp [hnil]
      unfold bounding_box
      simp only [hx, hy, listMin_translate _ _ hxne, listMin_translate _ _ hyne,
        listMax_translate _ _ hxne, listMax_translate _ _ hyne]
      constructor
      · rintro ⟨h1, h2, h3, h4⟩
        exact ⟨by linarith, by linarith, by linarith, by linarith⟩
      · rintro ⟨h1, h2, h3, h4⟩
        exact ⟨by linarith, by linarith, by linarith, by linarith⟩

end Lousa
